import Mathlib

/-!
Verification of the PolyRoll core geometry and turtle-path engine.

The definitions below are a shallow embedding of the repository's source:
three.js vectors/quaternions become explicit real-valued records, the
imperative loops become fuel-indexed recursions, and the per-shape data
tables are transcribed exactly.  Real-number comparisons from the source
are embedded as (classically decidable) real comparisons.
-/

namespace PolyRoll

open Classical

noncomputable section

/-- 3D vector, mirroring three.js `Vector3`. -/
@[ext]
structure V3 where
  x : ℝ
  y : ℝ
  z : ℝ


namespace V3

instance : Add V3 := ⟨fun a b => ⟨a.x + b.x, a.y + b.y, a.z + b.z⟩⟩

instance : Sub V3 := ⟨fun a b => ⟨a.x - b.x, a.y - b.y, a.z - b.z⟩⟩

instance : Neg V3 := ⟨fun a => ⟨-a.x, -a.y, -a.z⟩⟩

instance : SMul ℝ V3 := ⟨fun s a => ⟨s * a.x, s * a.y, s * a.z⟩⟩

instance : Zero V3 := ⟨⟨0, 0, 0⟩⟩

@[simp] theorem add_x (a b : V3) : (a + b).x = a.x + b.x := rfl

@[simp] theorem add_y (a b : V3) : (a + b).y = a.y + b.y := rfl

@[simp] theorem add_z (a b : V3) : (a + b).z = a.z + b.z := rfl

@[simp] theorem sub_x (a b : V3) : (a - b).x = a.x - b.x := rfl

@[simp] theorem sub_y (a b : V3) : (a - b).y = a.y - b.y := rfl

@[simp] theorem sub_z (a b : V3) : (a - b).z = a.z - b.z := rfl

@[simp] theorem neg_x (a : V3) : (-a).x = -a.x := rfl

@[simp] theorem neg_y (a : V3) : (-a).y = -a.y := rfl

@[simp] theorem neg_z (a : V3) : (-a).z = -a.z := rfl

@[simp] theorem smul_x (s : ℝ) (a : V3) : (s • a).x = s * a.x := rfl

@[simp] theorem smul_y (s : ℝ) (a : V3) : (s • a).y = s * a.y := rfl

@[simp] theorem smul_z (s : ℝ) (a : V3) : (s • a).z = s * a.z := rfl

@[simp] theorem zero_x : (0 : V3).x = 0 := rfl

@[simp] theorem zero_y : (0 : V3).y = 0 := rfl

@[simp] theorem zero_z : (0 : V3).z = 0 := rfl

@[simp] theorem mk_x (a b c : ℝ) : (V3.mk a b c).x = a := rfl

@[simp] theorem mk_y (a b c : ℝ) : (V3.mk a b c).y = b := rfl

@[simp] theorem mk_z (a b c : ℝ) : (V3.mk a b c).z = c := rfl

/-- three.js `Vector3.dot`. -/
def dot (a b : V3) : ℝ := a.x * b.x + a.y * b.y + a.z * b.z

/-- three.js `Vector3.cross` (`crossVectors`). -/
def cross (a b : V3) : V3 :=
  ⟨a.y * b.z - a.z * b.y, a.z * b.x - a.x * b.z, a.x * b.y - a.y * b.x⟩

/-- three.js `Vector3.lengthSq`. -/
def lengthSq (a : V3) : ℝ := a.x * a.x + a.y * a.y + a.z * a.z

/-- three.js `Vector3.length`. -/
def length (a : V3) : ℝ := Real.sqrt a.lengthSq

/-- three.js `Vector3.distanceTo`. -/
def distanceTo (a b : V3) : ℝ := length (a - b)

/-- three.js `Vector3.normalize`: divides by `length || 1`, so the zero
vector normalizes to itself. -/
def normalize (a : V3) : V3 := (1 / (if a.length = 0 then 1 else a.length)) • a

end V3

/-- Quaternion, mirroring three.js `Quaternion` (x,y,z imaginary, w real). -/
@[ext]
structure Quat where
  x : ℝ
  y : ℝ
  z : ℝ
  w : ℝ


namespace Quat

@[simp] theorem mkq_x (a b c d : ℝ) : (Quat.mk a b c d).x = a := rfl

@[simp] theorem mkq_y (a b c d : ℝ) : (Quat.mk a b c d).y = b := rfl

@[simp] theorem mkq_z (a b c d : ℝ) : (Quat.mk a b c d).z = c := rfl

@[simp] theorem mkq_w (a b c d : ℝ) : (Quat.mk a b c d).w = d := rfl

/-- The identity quaternion (`new Quaternion()`). -/
def identity : Quat := ⟨0, 0, 0, 1⟩

/-- three.js `Quaternion.setFromAxisAngle` (axis assumed normalized by the
caller, as in the three.js documentation). -/
def setFromAxisAngle (axis : V3) (angle : ℝ) : Quat :=
  ⟨axis.x * Real.sin (angle / 2), axis.y * Real.sin (angle / 2),
   axis.z * Real.sin (angle / 2), Real.cos (angle / 2)⟩

/-- three.js `Quaternion.multiplyQuaternions a b` (Hamilton product `a * b`). -/
def mul (a b : Quat) : Quat :=
  ⟨a.x * b.w + a.w * b.x + a.y * b.z - a.z * b.y,
   a.y * b.w + a.w * b.y + a.z * b.x - a.x * b.z,
   a.z * b.w + a.w * b.z + a.x * b.y - a.y * b.x,
   a.w * b.w - a.x * b.x - a.y * b.y - a.z * b.z⟩

/-- Quaternion squared norm. -/
def normSq (q : Quat) : ℝ := q.x * q.x + q.y * q.y + q.z * q.z + q.w * q.w

end Quat

namespace V3

/-- three.js `Vector3.applyQuaternion`:
`t = 2 * cross(q.xyz, v); v + q.w * t + cross(q.xyz, t)`. -/
def applyQuaternion (v : V3) (q : Quat) : V3 :=
  let qv : V3 := ⟨q.x, q.y, q.z⟩
  let t : V3 := (2 : ℝ) • cross qv v
  v + q.w • t + cross qv t

/-- three.js `Vector3.applyAxisAngle`. -/
def applyAxisAngle (v : V3) (axis : V3) (angle : ℝ) : V3 :=
  v.applyQuaternion (Quat.setFromAxisAngle axis angle)

/-- three.js `Vector3.angleTo`. -/
def angleTo (a b : V3) : ℝ :=
  let denominator := Real.sqrt (a.lengthSq * b.lengthSq)
  if denominator = 0 then Real.pi / 2
  else Real.arccos (max (-1) (min 1 (a.dot b / denominator)))

end V3

/-- `Math.atan2 y x`, via the complex argument. -/
def atan2 (y x : ℝ) : ℝ := Complex.arg ⟨x, y⟩

/-- `Math.sign`. -/
def jsSign (x : ℝ) : ℝ := if x < 0 then -1 else if 0 < x then 1 else 0

/-- First element of a list satisfying a predicate (`Array.prototype.find`). -/
def findP {α : Type _} (p : α → Prop) : List α → Option α
  | [] => none
  | a :: t => if p a then some a else findP p t

/-- `FaceData` from `polyhedra/PolyhedronDefinition.ts`. -/
structure FaceData where
  index : ℕ
  center : V3
  normal : V3
  vertices : List V3

/-- `TurtleState` from `types.ts`. -/
structure TurtleState where
  faceIndex : ℕ
  pos : V3
  heading : V3

/-- `TurtleCommand` as consumed by the path generators: the tagged variant
with its numeric payload and 1-based source line number. -/
inductive TCmd
  | start (x y : ℝ) (ln : ℕ)
  | fd (d : ℝ) (ln : ℕ)
  | bk (d : ℝ) (ln : ℕ)
  | lt (deg : ℝ) (ln : ℕ)
  | rt (deg : ℝ) (ln : ℕ)

/-- The error record of `PathResult` (`{ message, lineNumber }`). -/
structure PathError where
  message : String
  lineNumber : ℕ

/-- `PathResult` as constructed by `generatePath` in `utils/turtle.ts`:
path segments plus an optional error.  (Each segment is its `points` list.) -/
structure PathResult where
  segments : List (List V3)
  error : Option PathError

/-- `offsetPoint` from `utils/turtle.ts`. -/
def offsetPoint (pos : V3) (face : FaceData) : V3 :=
  pos + (0.015 : ℝ) • face.normal

/-- `getAdjacentFace` from `utils/turtle.ts`. -/
def getAdjacentFace (faces : List FaceData) (currentFace : FaceData)
    (edgeV1 edgeV2 : V3) : Option FaceData :=
  findP (fun f => f.index ≠ currentFace.index ∧
    (∃ v ∈ f.vertices, v.distanceTo edgeV1 < 0.01) ∧
    (∃ v ∈ f.vertices, v.distanceTo edgeV2 < 0.01)) faces

/-- `crossEdge` from `utils/turtle.ts`: updates heading by the rotation
about the shared edge axis and nudges the position into the new face. -/
def crossEdge (state : TurtleState) (fromFace toFace : FaceData)
    (edgeV1 edgeV2 : V3) : TurtleState :=
  let edgeAxis := (edgeV2 - edgeV1).normalize
  let angle := fromFace.normal.angleTo toFace.normal
  let crossN := V3.cross fromFace.normal toFace.normal
  let rotationSgn : ℝ := if 0 < crossN.dot edgeAxis then 1 else -1
  let rotation := Quat.setFromAxisAngle edgeAxis (angle * rotationSgn)
  let newHeading := state.heading.applyQuaternion rotation
  let inwards0 := (V3.cross toFace.normal edgeAxis).normalize
  let toCenter := toFace.center - state.pos
  let inwards := if inwards0.dot toCenter < 0 then -inwards0 else inwards0
  { faceIndex := toFace.index
    pos := state.pos + (0.001 : ℝ) • inwards
    heading := newHeading }

/-- Result of a vertex-proximity test in `findVertexHit`. -/
structure VHit where
  t : ℝ
  vertex : V3
  idx : ℕ

/-- Result of an edge-intersection test in `findEdgeHit`. -/
structure EHit where
  t : ℝ
  edgeIndex : ℕ

/-- Loop body accumulation of `findVertexHit` from `utils/turtle.ts`. -/
def findVertexHitAux (pos heading : V3) : List (ℕ × V3) → Option VHit → Option VHit
  | [], best => best
  | (i, vertex) :: rest, best =>
    let toVertex := vertex - pos
    let projLen := toVertex.dot heading
    let best' :=
      if 0 < projLen then
        let closestPoint := pos + projLen • heading
        let dist := closestPoint.distanceTo vertex
        if dist < 0.05 ∧ (match best with | none => True | some b => projLen < b.t) then
          some ⟨projLen, vertex, i⟩
        else best
      else best
    findVertexHitAux pos heading rest best'

/-- `findVertexHit` from `utils/turtle.ts`: closest vertex of the face within
the 0.05 proximity threshold of the movement ray. -/
def findVertexHit (face : FaceData) (pos heading : V3) : Option VHit :=
  findVertexHitAux pos heading face.vertices.enum none

/-- Loop body accumulation of `findEdgeHit` from `utils/turtle.ts`. -/
def findEdgeHitAux (face : FaceData) (pos heading : V3) :
    List ℕ → Option EHit → Option EHit
  | [], best => best
  | i :: rest, best =>
    let v1 := face.vertices.getD i 0
    let v2 := face.vertices.getD ((i + 1) % face.vertices.length) 0
    let edgeDir := (v2 - v1).normalize
    let edgeOutNormal := (V3.cross edgeDir face.normal).normalize
    let denominator := heading.dot edgeOutNormal
    let best' :=
      if 0.0001 < denominator then
        let distToPlane := (pos - v1).dot edgeOutNormal
        let t := -distToPlane / denominator
        if -0.0001 < t ∧ (match best with | none => True | some b => t < b.t) then
          some ⟨t, i⟩
        else best
      else best
    findEdgeHitAux face pos heading rest best'

/-- `findEdgeHit` from `utils/turtle.ts`: closest outward edge crossing of
the movement ray with the current face's boundary. -/
def findEdgeHit (face : FaceData) (pos heading : V3) : Option EHit :=
  findEdgeHitAux face pos heading (List.range face.vertices.length) none

/-- Result of one `moveTurtle` call: updated state, updated current path,
and the error message if the walk reached a vertex. -/
structure MoveRes where
  st : TurtleState
  path : List V3
  err : Option String

mutual

/-- The `while` loop of `moveTurtle`, indexed by the remaining iteration
budget (`MAX_ITERATIONS − iterations`). -/
def moveLoop (faces : List FaceData) (sgn : ℝ) :
    ℕ → TurtleState → ℝ → List V3 → MoveRes
  | 0, st, _, path => ⟨st, path, none⟩
  | fuel + 1, st, remaining, path =>
    if 0.0001 < remaining then
      let moveHeading := sgn • st.heading
      match findP (fun f => f.index = st.faceIndex) faces with
      | none => ⟨st, path, none⟩
      | some f =>
        let vertexHit := findVertexHit f st.pos moveHeading
        let edgeHit := findEdgeHit f st.pos moveHeading
        match vertexHit with
        | some vh =>
          if (match edgeHit with | none => True | some eh => vh.t ≤ eh.t) ∧
              vh.t < remaining then
            let st' := { st with pos := st.pos + vh.t • moveHeading }
            ⟨st', path ++ [offsetPoint st'.pos f], some "Path reached a vertex"⟩
          else
            moveLoopEdge faces sgn fuel st remaining path f moveHeading edgeHit
        | none =>
          moveLoopEdge faces sgn fuel st remaining path f moveHeading edgeHit
    else ⟨st, path, none⟩

/-- The edge-crossing / free-move alternative of the `moveTurtle` loop body. -/
def moveLoopEdge (faces : List FaceData) (sgn : ℝ) (fuel : ℕ)
    (st : TurtleState) (remaining : ℝ) (path : List V3) (f : FaceData)
    (moveHeading : V3) (edgeHit : Option EHit) : MoveRes :=
  match edgeHit with
  | some eh =>
    if eh.t < remaining then
      let st1 := { st with pos := st.pos + eh.t • moveHeading }
      let path1 := path ++ [offsetPoint st1.pos f]
      let remaining1 := remaining - eh.t
      let v1 := f.vertices.getD eh.edgeIndex 0
      let v2 := f.vertices.getD ((eh.edgeIndex + 1) % f.vertices.length) 0
      match getAdjacentFace faces f v1 v2 with
      | some neighbor =>
        let st2 := crossEdge st1 f neighbor v1 v2
        moveLoop faces sgn fuel st2 remaining1 (path1 ++ [offsetPoint st2.pos neighbor])
      | none => ⟨st1, path1, none⟩
    else
      let st1 := { st with pos := st.pos + remaining • moveHeading }
      moveLoop faces sgn fuel st1 0 (path ++ [offsetPoint st1.pos f])
  | none =>
    let st1 := { st with pos := st.pos + remaining • moveHeading }
    moveLoop faces sgn fuel st1 0 (path ++ [offsetPoint st1.pos f])

end

/-- `moveTurtle` from `utils/turtle.ts` (`MAX_ITERATIONS = 100`). -/
def moveTurtle (faces : List FaceData) (st : TurtleState) (distance : ℝ)
    (path : List V3) : MoveRes :=
  moveLoop faces (jsSign distance) 100 st |distance| path

/-- Intermediate state of the `generatePath` command loop. -/
structure GenState where
  st : TurtleState
  segments : List (List V3)
  currentPath : List V3
  error : Option PathError

/-- One iteration of the `generatePath` command loop from `utils/turtle.ts`. -/
def processCmd (faces : List FaceData) (startFace : FaceData)
    (initialHeading : V3) (g : GenState) : TCmd → GenState
  | .start x y _ =>
    let f := startFace
    let right := (initialHeading.cross f.normal).normalize
    let pos := f.center + x • initialHeading + y • right
    { st := ⟨f.index, pos, initialHeading⟩
      segments := if 1 < g.currentPath.length then g.segments ++ [g.currentPath]
        else g.segments
      currentPath := [offsetPoint pos f]
      error := g.error }
  | .lt deg _ =>
    let rotateAngle := deg * (Real.pi / 180)
    match findP (fun face => face.index = g.st.faceIndex) faces with
    | some f =>
      { g with st := { g.st with heading := g.st.heading.applyAxisAngle f.normal rotateAngle } }
    | none => g
  | .rt deg _ =>
    let rotateAngle := -(deg * (Real.pi / 180))
    match findP (fun face => face.index = g.st.faceIndex) faces with
    | some f =>
      { g with st := { g.st with heading := g.st.heading.applyAxisAngle f.normal rotateAngle } }
    | none => g
  | .fd d ln =>
    let mv := moveTurtle faces g.st d g.currentPath
    { st := mv.st
      segments := g.segments
      currentPath := mv.path
      error := mv.err.map fun msg => ⟨msg, ln⟩ }
  | .bk d ln =>
    let mv := moveTurtle faces g.st (-d) g.currentPath
    { st := mv.st
      segments := g.segments
      currentPath := mv.path
      error := mv.err.map fun msg => ⟨msg, ln⟩ }

/-- The `generatePath` command loop, with the `break` on error. -/
def genLoop (faces : List FaceData) (startFace : FaceData) (initialHeading : V3) :
    List TCmd → GenState → GenState
  | [], g => g
  | c :: cs, g =>
    let g' := processCmd faces startFace initialHeading g c
    if g'.error.isSome then g' else genLoop faces startFace initialHeading cs g'

/-- The initial heading of `generatePath`: from the face-1 center toward the
midpoint of its first boundary edge. -/
def initialHeadingOf (startFace : FaceData) : V3 :=
  ((0.5 : ℝ) • (startFace.vertices.getD 0 0 + startFace.vertices.getD 1 0) -
    startFace.center).normalize

/-- The initial loop state of `generatePath`. -/
def genInit (startFace : FaceData) : GenState :=
  { st := ⟨startFace.index, startFace.center, initialHeadingOf startFace⟩
    segments := []
    currentPath := [offsetPoint startFace.center startFace]
    error := none }

/-- `generatePath` from `utils/turtle.ts`, parameterized by the shape's face
list (the source obtains it from `getPolyhedron(shape).getFaces()`). -/
def generatePath (faces : List FaceData) (commands : List TCmd) : PathResult :=
  match findP (fun f => f.index = 1) faces with
  | none => ⟨[], none⟩
  | some startFace =>
    let g := genLoop faces startFace (initialHeadingOf startFace) commands
      (genInit startFace)
    ⟨g.segments ++ (if 1 < g.currentPath.length then [g.currentPath] else []),
      g.error⟩

/-- Intermediate state of the `generateFlatPath` command loop. -/
structure FlatState where
  pos : V3
  heading : V3
  segments : List (List V3)
  currentPath : List V3

/-- One iteration of the `generateFlatPath` command loop. -/
def processFlatCmd (worldHeading worldNormal startPos : V3) (s : FlatState) :
    TCmd → FlatState
  | .start x y _ =>
    let heading := worldHeading
    let right := (heading.cross worldNormal).normalize
    let pos := startPos + x • heading + y • right
    { pos := pos
      heading := heading
      segments := if 0 < s.currentPath.length then s.segments ++ [s.currentPath]
        else s.segments
      currentPath := [pos] }
  | .lt deg _ =>
    { s with heading := s.heading.applyAxisAngle worldNormal (deg * Real.pi / 180) }
  | .rt deg _ =>
    { s with heading := s.heading.applyAxisAngle worldNormal (-deg * Real.pi / 180) }
  | .fd d _ =>
    let pos := s.pos + d • s.heading
    { s with pos := pos, currentPath := s.currentPath ++ [pos] }
  | .bk d _ =>
    let pos := s.pos + (-d) • s.heading
    { s with pos := pos, currentPath := s.currentPath ++ [pos] }

/-- `generateFlatPath` from `utils/turtle.ts`, parameterized by the face list
and the shape's `initialQuaternion`. -/
def generateFlatPath (faces : List FaceData) (initialQuaternion : Quat)
    (commands : List TCmd) : List (List V3) :=
  match findP (fun f => f.index = 1) faces with
  | none => []
  | some startFace =>
    let localHeading := initialHeadingOf startFace
    let worldHeading := (localHeading.applyQuaternion initialQuaternion).normalize
    let worldNormal : V3 := ⟨0, -1, 0⟩
    let startPos : V3 := ⟨0, 0.02, 0⟩
    let s := commands.foldl (processFlatCmd worldHeading worldNormal startPos)
      ⟨startPos, worldHeading, [], [startPos]⟩
    s.segments ++ (if 0 < s.currentPath.length then [s.currentPath] else [])

/-- Euclidean distances between consecutive points of one polyline. -/
def stepDists : List V3 → List ℝ
  | p :: q :: rest => p.distanceTo q :: stepDists (q :: rest)
  | _ => []

/-- Per-segment consecutive-point distances of a whole path. -/
def pathStepDists (segs : List (List V3)) : List (List ℝ) :=
  segs.map stepDists

/-- `EDGE_LENGTH` from `constants.ts`. -/
def EDGE_LENGTH : ℝ := 1

/-- The interpolated roll pose of the `useFrame` hook in
`components/Simulation.tsx`: position and orientation at progress `t`
(with the eased parameter `t * (2 - t)`). -/
def rollPoseAt (axis pivot : V3) (rollAngle : ℝ) (startPos : V3)
    (startQuat : Quat) (t : ℝ) : V3 × Quat :=
  let easedT := t * (2 - t)
  let angle := easedT * rollAngle
  let qRot := Quat.setFromAxisAngle axis angle
  let newQuat := Quat.mul qRot startQuat
  let vecToCenter := (startPos - pivot).applyQuaternion qRot
  (pivot + vecToCenter, newQuat)

/-- Fold of the `calculateFaceIndex` loop in `components/Simulation.tsx`. -/
def calcFaceAux (q : Quat) : List (ℕ × V3) → ℝ × ℕ → ℝ × ℕ
  | [], acc => acc
  | (idx, localC) :: rest, (bestDot, bestIdx) =>
    let d := (localC.normalize.applyQuaternion q).dot ⟨0, -1, 0⟩
    calcFaceAux q rest (if bestDot < d then (d, idx) else (bestDot, bestIdx))

/-- `calculateFaceIndex` from `components/Simulation.tsx`: the 1-based index
of the face whose world-space normal has the largest dot with `(0,-1,0)`. -/
def calculateFaceIndex (faceCenters : List V3) (q : Quat) : ℕ :=
  (calcFaceAux q faceCenters.enum (-1, 0)).2 + 1

/-- The world dot of face center `c` with straight down, as scored by
`calculateFaceIndex`. -/
def faceDownDot (q : Quat) (c : V3) : ℝ :=
  (c.normalize.applyQuaternion q).dot ⟨0, -1, 0⟩

/-- `RollTarget` from `types.ts`. -/
structure RollTarget where
  axis : V3
  point : V3
  targetCenter : V3
  directionAngle : ℝ

/-- The per-edge body of `updateTargets` in `components/Simulation.tsx`. -/
def mkRollTarget (pos : V3) (edge : V3 × V3) : RollTarget :=
  let pivot := (0.5 : ℝ) • (edge.1 + edge.2)
  let currentFloorCenter : V3 := ⟨pos.x, 0, pos.z⟩
  let toPivot := pivot - currentFloorCenter
  let rollDirection := toPivot.normalize
  let axis := (V3.cross ⟨0, 1, 0⟩ rollDirection).normalize
  let targetCenter := currentFloorCenter + (2 : ℝ) • toPivot
  ⟨axis, pivot, targetCenter, atan2 toPivot.z toPivot.x⟩

/-- Stable insertion of the `sort((a, b) => a.v.y - b.v.y)` comparator. -/
def insertByY (v : V3) : List V3 → List V3
  | [] => [v]
  | h :: t => if v.y < h.y then v :: h :: t else h :: insertByY v t

/-- Stable ascending sort by world Y, as performed by `updateTargets`
(`sort((a, b) => a.v.y - b.v.y)`; JS `Array.prototype.sort` is stable, and
insertion after equal keys preserves the original order of ties). -/
def sortByY (l : List V3) : List V3 := l.foldl (fun acc v => insertByY v acc) []

/-- The index pairs of the cube branch's double loop (`i < j < 4`). -/
def cubePairs : List (ℕ × ℕ) := [(0, 1), (0, 2), (0, 3), (1, 2), (1, 3), (2, 3)]

/-- The ground-polygon edges assembled by `updateTargets`. -/
def groundEdges (isCube : Bool) (bottom : List V3) : List (V3 × V3) :=
  if isCube then
    cubePairs.filterMap fun ij =>
      let bi := bottom.getD ij.1 0
      let bj := bottom.getD ij.2 0
      if bi.distanceTo bj < EDGE_LENGTH * 1.05 then some (bi, bj) else none
  else
    [(bottom.getD 0 0, bottom.getD 1 0), (bottom.getD 1 0, bottom.getD 2 0),
     (bottom.getD 2 0, bottom.getD 0 0)]

/-- `updateTargets` from `components/Simulation.tsx`, parameterized by the
shape's world-space vertices (the source applies the pose matrix first). -/
def updateTargets (isCube : Bool) (worldVertices : List V3) (pos : V3) :
    List RollTarget :=
  let sorted := sortByY worldVertices
  let groundCount : ℕ := if isCube then 4 else 3
  let bottom := sorted.take groundCount
  (groundEdges isCube bottom).map (mkRollTarget pos)

/-- The doubly covered square's vertices (`DC_SQUARE_VERTICES` in
`polyhedra/doublyCoveredKGon.ts`, with `EDGE_LENGTH = 1`). -/
def dcSquareVertices : List V3 :=
  [⟨-(1 / 2), -(1 / 2), -(1 / 2)⟩, ⟨1 / 2, -(1 / 2), -(1 / 2)⟩,
   ⟨1 / 2, -(1 / 2), 1 / 2⟩, ⟨-(1 / 2), -(1 / 2), 1 / 2⟩]

/-- `dcSquare.getFaces()` from `polyhedra/doublyCoveredKGon.ts`: two faces at
the same center with opposite normals; face 2 has the reversed vertex list. -/
def dcSquareFaces : List FaceData :=
  [⟨1, ⟨0, -(1 / 2), 0⟩, ⟨0, -1, 0⟩, dcSquareVertices⟩,
   ⟨2, ⟨0, -(1 / 2), 0⟩, ⟨0, 1, 0⟩, dcSquareVertices.reverse⟩]

end

/-! ### The command parser (`parseCommands` in `utils/turtle.ts`)

The parser is embedded computably over `ℚ`.  A numeric token that JS
`parseFloat` would map to `NaN` is represented by `none`. -/

/-- `text.split('\n')` over the character list (keeps empty lines, one
trailing empty line for a trailing newline, `[""] ` for the empty string —
the JS `String.prototype.split` behavior). -/
def splitNl : List Char → List (List Char)
  | [] => [[]]
  | c :: t =>
    let r := splitNl t
    if c = '\n' then [] :: r
    else
      match r with
      | h :: rs => (c :: h) :: rs
      | [] => [[c]]

/-- `String.prototype.trim` over the character list. -/
def trimChars (cs : List Char) : List Char :=
  ((cs.dropWhile Char.isWhitespace).reverse.dropWhile Char.isWhitespace).reverse

/-- Accumulating splitter for `split(/\s+/)`: whitespace-run-delimited
tokens, no empty tokens (the input is already trimmed). -/
def splitWsAux : List Char → List Char → List (List Char)
  | [], acc => if acc.isEmpty then [] else [acc.reverse]
  | c :: t, acc =>
    if c.isWhitespace then
      if acc.isEmpty then splitWsAux t [] else acc.reverse :: splitWsAux t []
    else splitWsAux t (c :: acc)

/-- `line.trim().toLowerCase().split(/\s+/)`: whitespace-delimited tokens of
a trimmed, lowercased line. -/
def tokenize (line : List Char) : List (List Char) :=
  splitWsAux ((trimChars line).map Char.toLower) []

/-- Numeric value of a digit string. -/
def natOfDigits (ds : List Char) : ℕ :=
  ds.foldl (fun a c => 10 * a + (c.toNat - 48)) 0

/-- JS `parseFloat`, modelled for plain decimal numerals: optional sign,
integer digits, optional fraction; `none` when no digit is found (`NaN`).
(The exponent and special forms of full JS `parseFloat` are not exercised by
the repository's command language.) -/
def parseFloatQ (s : List Char) : Option ℚ :=
  let sgn : ℚ × List Char :=
    match s with
    | c :: t => if c = '-' then (-1, t) else if c = '+' then (1, t) else (1, s)
    | [] => (1, s)
  let intDigits := sgn.2.takeWhile Char.isDigit
  let rest := sgn.2.dropWhile Char.isDigit
  let fracDigits :=
    match rest with
    | c :: t => if c = '.' then t.takeWhile Char.isDigit else []
    | [] => []
  if intDigits.length = 0 ∧ fracDigits.length = 0 then none
  else some (sgn.1 * ((natOfDigits intDigits : ℚ) +
    (natOfDigits fracDigits : ℚ) / (10 : ℚ) ^ fracDigits.length))

/-- A parsed turtle command (`TurtleCommand` in `types.ts`): the tag, the
numeric payload, and the 1-based source line number.  The `start` payload
keeps the raw `parseFloat` results (the source applies no `isNaN` guard
there), the other commands carry the guarded value. -/
inductive PCmd
  | start (x y : Option ℚ) (lineNumber : ℕ)
  | fd (v : ℚ) (lineNumber : ℕ)
  | bk (v : ℚ) (lineNumber : ℕ)
  | lt (v : ℚ) (lineNumber : ℕ)
  | rt (v : ℚ) (lineNumber : ℕ)
deriving DecidableEq

/-- The source line number carried by a parsed command. -/
def PCmd.ln : PCmd → ℕ
  | .start _ _ n => n
  | .fd _ n => n
  | .bk _ n => n
  | .lt _ n => n
  | .rt _ n => n

/-- The numeric payload of a movement/turn command (`none` for `start`). -/
def PCmd.moveVal : PCmd → Option ℚ
  | .start _ _ _ => none
  | .fd v _ => some v
  | .bk v _ => some v
  | .lt v _ => some v
  | .rt v _ => some v

/-- The token dispatch of the `parseCommands` line body (`cmd` is token 0,
`val` the `isNaN`-guarded value of token 1). -/
def parseTokens (parts : List (List Char)) (lineNumber : ℕ) : List PCmd :=
  if parts.length < 2 then []
  else if parts.getD 0 [] = "start".data ∧ 3 ≤ parts.length then
    [.start (parseFloatQ (parts.getD 1 [])) (parseFloatQ (parts.getD 2 []))
      lineNumber]
  else if parts.getD 0 [] = "fd".data then
    [.fd ((parseFloatQ (parts.getD 1 [])).getD 0) lineNumber]
  else if parts.getD 0 [] = "bk".data then
    [.bk ((parseFloatQ (parts.getD 1 [])).getD 0) lineNumber]
  else if parts.getD 0 [] = "lt".data then
    [.lt ((parseFloatQ (parts.getD 1 [])).getD 0) lineNumber]
  else if parts.getD 0 [] = "rt".data then
    [.rt ((parseFloatQ (parts.getD 1 [])).getD 0) lineNumber]
  else []

/-- The per-line body of `parseCommands`: zero or one command per line. -/
def parseLine (line : List Char) (lineNumber : ℕ) : List PCmd :=
  parseTokens (tokenize line) lineNumber

/-- `parseCommands` from `utils/turtle.ts`: split on newlines, parse each
line, attach the 1-based line number. -/
def parseCommands (text : String) : List PCmd :=
  ((splitNl text.data).enum).flatMap fun p => parseLine p.2 (p.1 + 1)

/-! ### Exact arithmetic in ℤ[√5] for the dodecahedron

`computeFaces` and the face 4-coloring in `polyhedra/dodecahedron.ts` work
on coordinates lying in ℚ(√5).  The embedding represents the source's
vertex coordinates scaled by 4 (which lands them in ℤ[√5]) and decides the
source's real-number comparisons exactly; the bridge lemmas below relate
each decision back to the real-valued test the source performs. -/

/-- An element `a + b·√5` of ℤ[√5]. -/
structure K5 where
  a : ℤ
  b : ℤ
deriving DecidableEq

namespace K5

/-- Addition in ℤ[√5]. -/
def add (u v : K5) : K5 := ⟨u.a + v.a, u.b + v.b⟩

/-- Multiplication in ℤ[√5] (`√5 · √5 = 5`). -/
def mul (u v : K5) : K5 := ⟨u.a * v.a + 5 * (u.b * v.b), u.a * v.b + u.b * v.a⟩

/-- Negation in ℤ[√5]. -/
def neg (u : K5) : K5 := ⟨-u.a, -u.b⟩

/-- Subtraction in ℤ[√5]. -/
def sub (u v : K5) : K5 := add u (neg v)

/-- Embedding of an integer. -/
def ofInt (n : ℤ) : K5 := ⟨n, 0⟩

/-- Exact decision of `0 ≤ a + b·√5`. -/
def nnegB (u : K5) : Bool :=
  if 0 ≤ u.a then
    if 0 ≤ u.b then true else decide (5 * (u.b * u.b) ≤ u.a * u.a)
  else
    if 0 ≤ u.b then decide (u.a * u.a ≤ 5 * (u.b * u.b)) else false

/-- Exact decision of `x < y` over ℤ[√5]. -/
def ltB (u v : K5) : Bool := ! nnegB (sub u v)

/-- Exact decision of `x ≤ y` over ℤ[√5]. -/
def leB (u v : K5) : Bool := nnegB (sub v u)

/-- The real value represented by an element of ℤ[√5]. -/
noncomputable def toReal (u : K5) : ℝ := u.a + u.b * Real.sqrt 5

end K5

/-- A vector with ℤ[√5] coordinates. -/
structure KV3 where
  x : K5
  y : K5
  z : K5
deriving DecidableEq

namespace KV3

/-- Componentwise addition. -/
def add (u v : KV3) : KV3 := ⟨u.x.add v.x, u.y.add v.y, u.z.add v.z⟩

/-- Componentwise subtraction. -/
def sub (u v : KV3) : KV3 := ⟨u.x.sub v.x, u.y.sub v.y, u.z.sub v.z⟩

/-- Dot product. -/
def dot (u v : KV3) : K5 :=
  ((u.x.mul v.x).add (u.y.mul v.y)).add (u.z.mul v.z)

/-- Cross product. -/
def cross (u v : KV3) : KV3 :=
  ⟨(u.y.mul v.z).sub (u.z.mul v.y),
   (u.z.mul v.x).sub (u.x.mul v.z),
   (u.x.mul v.y).sub (u.y.mul v.x)⟩

/-- Squared norm. -/
def normSq (u : KV3) : K5 := dot u u

/-- The real vector with the raw (×4 scaled) coordinates. -/
noncomputable def kreal (u : KV3) : V3 := ⟨u.x.toReal, u.y.toReal, u.z.toReal⟩

/-- The real vector represented, after undoing the ×4 coordinate scale. -/
noncomputable def toV3 (u : KV3) : V3 := ((1 : ℝ) / 4) • kreal u

end KV3

/-- `DOD_VERTICES_RAW` of `polyhedra/dodecahedron.ts` scaled by 4: the
source scales the raw `(±1, ±1, ±1) / (0, ±φ, ±1/φ) / …` table by
`dodScale = φ/2`, so four times a coordinate is `1+√5`, `3+√5`, `2`
or `0`. -/
def dodVerticesK : List KV3 :=
  [⟨⟨1, 1⟩, ⟨1, 1⟩, ⟨1, 1⟩⟩, ⟨⟨1, 1⟩, ⟨1, 1⟩, ⟨-1, -1⟩⟩,
   ⟨⟨1, 1⟩, ⟨-1, -1⟩, ⟨1, 1⟩⟩, ⟨⟨1, 1⟩, ⟨-1, -1⟩, ⟨-1, -1⟩⟩,
   ⟨⟨-1, -1⟩, ⟨1, 1⟩, ⟨1, 1⟩⟩, ⟨⟨-1, -1⟩, ⟨1, 1⟩, ⟨-1, -1⟩⟩,
   ⟨⟨-1, -1⟩, ⟨-1, -1⟩, ⟨1, 1⟩⟩, ⟨⟨-1, -1⟩, ⟨-1, -1⟩, ⟨-1, -1⟩⟩,
   ⟨⟨0, 0⟩, ⟨3, 1⟩, ⟨2, 0⟩⟩, ⟨⟨0, 0⟩, ⟨3, 1⟩, ⟨-2, 0⟩⟩,
   ⟨⟨0, 0⟩, ⟨-3, -1⟩, ⟨2, 0⟩⟩, ⟨⟨0, 0⟩, ⟨-3, -1⟩, ⟨-2, 0⟩⟩,
   ⟨⟨2, 0⟩, ⟨0, 0⟩, ⟨3, 1⟩⟩, ⟨⟨-2, 0⟩, ⟨0, 0⟩, ⟨3, 1⟩⟩,
   ⟨⟨2, 0⟩, ⟨0, 0⟩, ⟨-3, -1⟩⟩, ⟨⟨-2, 0⟩, ⟨0, 0⟩, ⟨-3, -1⟩⟩,
   ⟨⟨3, 1⟩, ⟨2, 0⟩, ⟨0, 0⟩⟩, ⟨⟨3, 1⟩, ⟨-2, 0⟩, ⟨0, 0⟩⟩,
   ⟨⟨-3, -1⟩, ⟨2, 0⟩, ⟨0, 0⟩⟩, ⟨⟨-3, -1⟩, ⟨-2, 0⟩, ⟨0, 0⟩⟩]

/-- The `i`-th dodecahedron vertex (scaled representation). -/
def dodVK (i : ℕ) : KV3 := dodVerticesK.getD i ⟨⟨0, 0⟩, ⟨0, 0⟩, ⟨0, 0⟩⟩

/-- Scaled squared distance between two dodecahedron vertices
(16 × the source's squared distance). -/
def sqDistK (i j : ℕ) : K5 := KV3.normSq (KV3.sub (dodVK i) (dodVK j))

/-- The adjacency test of `computeFaces`:
`|v_i.distanceTo(v_j) − EDGE_LENGTH| < 0.01`, decided exactly on the scaled
squared distance (`d ∈ (0.99², 1.01²)` becomes `10⁴·16·d² ∈ (156816, 163216)`
after the ×16 scale). -/
def adjB (i j : ℕ) : Bool :=
  decide (i ≠ j) &&
    K5.ltB (K5.ofInt 156816) ((K5.ofInt 10000).mul (sqDistK i j)) &&
    K5.ltB ((K5.ofInt 10000).mul (sqDistK i j)) (K5.ofInt 163216)

/-- The neighbor list of vertex `i` in ascending order — the iteration
order of the source's `adj[i]` `Set` (pairs are inserted in ascending
lexicographic scan order). -/
def adjListD (i : ℕ) : List ℕ := (List.range 20).filter fun j => adjB i j

/-- The (unnormalized) plane normal of a candidate face, from its first
three vertices, as in `computeFaces`. -/
def faceNormalK (face : List ℕ) : KV3 :=
  KV3.cross (KV3.sub (dodVK (face.getD 1 0)) (dodVK (face.getD 0 0)))
    (KV3.sub (dodVK (face.getD 2 0)) (dodVK (face.getD 0 0)))

/-- The coplanarity filter of `computeFaces`: every face vertex satisfies
`|(v_i − v_0) · n̂| ≤ eps` with `eps = 0.01` and `n̂` the normalized plane
normal, decided exactly on squares (`10⁴·(w·n)² ≤ 16·‖n‖²` in the scaled
representation; the source's zero-normal convention `normalize 0 = 0`
makes the test pass vacuously, which the squared form reproduces). -/
def coplanarB (face : List ℕ) : Bool :=
  face.all fun vi =>
    let w := KV3.sub (dodVK vi) (dodVK (face.getD 0 0))
    let d := KV3.dot w (faceNormalK face)
    K5.leB ((K5.ofInt 10000).mul (d.mul d))
      ((K5.ofInt 16).mul (KV3.normSq (faceNormalK face)))

/-- Sum of the face's vertex vectors (5 × the face center; the positive
factor does not affect the winding sign test). -/
def faceCenterSumK (face : List ℕ) : KV3 :=
  face.foldl (fun acc vi => KV3.add acc (dodVK vi)) ⟨⟨0, 0⟩, ⟨0, 0⟩, ⟨0, 0⟩⟩

/-- Sign quantity of the outward-winding test of `computeFaces`:
`n̂ · center.normalize() < 0` has the sign of `n · Σvᵢ`. -/
def windDot (face : List ℕ) : K5 :=
  KV3.dot (faceNormalK face) (faceCenterSumK face)

/-- The winding fix of `computeFaces`: reverse when the normal points
inward, then re-check once (as the source does). -/
def fixWinding (face : List ℕ) : List ℕ :=
  let f1 := if K5.ltB (windDot face) (K5.ofInt 0) then face.reverse else face
  if K5.ltB (windDot f1) (K5.ofInt 0) then f1.reverse else f1

/-- The candidate 5-cycles of `computeFaces`, in the exact nested-loop
iteration order of the source. -/
def dodCandidates : List (List ℕ) :=
  (List.range 20).flatMap fun s =>
    (adjListD s).flatMap fun v1 =>
      (adjListD v1).flatMap fun v2 =>
        if v2 = s then []
        else
          (adjListD v2).flatMap fun v3 =>
            if v3 = s ∨ v3 = v1 then []
            else
              (adjListD v3).flatMap fun v4 =>
                if v4 = s ∨ v4 = v1 ∨ v4 = v2 then []
                else if adjB v4 s then [[s, v1, v2, v3, v4]] else []

/-- Ascending insertion used by the canonical sorted-vertex key. -/
def insertNat (n : ℕ) : List ℕ → List ℕ
  | [] => [n]
  | h :: t => if n ≤ h then n :: h :: t else h :: insertNat n t

/-- The canonical sorted-vertex key of `computeFaces` (`[...face].sort()`). -/
def canonKey (face : List ℕ) : List ℕ := face.foldr insertNat []

/-- The accumulation step of `computeFaces`: coplanarity filter, canonical
key deduplication, winding fix, push. -/
def computeFacesStep (acc : List (List ℕ) × List (List ℕ)) (face : List ℕ) :
    List (List ℕ) × List (List ℕ) :=
  if coplanarB face then
    let key := canonKey face
    if key ∈ acc.2 then acc
    else (acc.1 ++ [fixWinding face], acc.2 ++ [key])
  else acc

/-- `computeFaces` from `polyhedra/dodecahedron.ts`: the face-discovery
search over the 20-vertex adjacency graph. -/
def computeFaces : List (List ℕ) :=
  (dodCandidates.foldl computeFacesStep ([], [])).1

/-- Number of vertices shared by two faces
(`DOD_FACES[i].filter(v => DOD_FACES[j].includes(v))`). -/
def sharedCount (f g : List ℕ) : ℕ := (f.filter fun v => decide (v ∈ g)).length

/-- Face adjacency for the 4-coloring: faces sharing at least 2 vertices. -/
def faceAdjB (faces : List (List ℕ)) (i j : ℕ) : Bool :=
  decide (i ≠ j) && decide (2 ≤ sharedCount (faces.getD i []) (faces.getD j []))

/-- The neighbor list of face `i` (ascending, the `Set` iteration order). -/
def faceAdjList (faces : List (List ℕ)) (i : ℕ) : List ℕ :=
  (List.range 12).filter fun j => faceAdjB faces i j

/-- The inner color loop (`for c = 0..3`) of the backtracking search,
with the recursive `solve` call abstracted as the argument `solve`. -/
def tryColor (adj : ℕ → List ℕ) (solve : ℕ → List ℤ → Option (List ℤ))
    (f : ℕ) (colors : List ℤ) : List ℤ → Option (List ℤ)
  | [] => none
  | c :: cs =>
    if (adj f).all (fun nb => decide (colors.getD nb (-1) ≠ c)) then
      match solve (f + 1) (colors.set f c) with
      | some r => some r
      | none => tryColor adj solve f colors cs
    else tryColor adj solve f colors cs

/-- The backtracking `solve` of `computeFaceColorIndices`, with the
recursion depth (`12 − f`) as fuel. -/
def solveAux (adj : ℕ → List ℕ) : ℕ → ℕ → List ℤ → Option (List ℤ)
  | 0, _, colors => some colors
  | fuel + 1, f, colors => tryColor adj (solveAux adj fuel) f colors [0, 1, 2, 3]

/-- `computeFaceColorIndices` from `polyhedra/dodecahedron.ts`,
parameterized by the face list it reads (`DOD_FACES` in the source): the
12-entry color array after `solve(0)`, whose boolean result is discarded —
on failure every entry is left at the unassigned marker `-1`. -/
def computeFaceColorIndices (faces : List (List ℕ)) : List ℤ :=
  (solveAux (faceAdjList faces) 12 0 (List.replicate 12 (-1))).getD
    (List.replicate 12 (-1))

/-- `phi` from `polyhedra/dodecahedron.ts`. -/
noncomputable def dodPhi : ℝ := (1 + Real.sqrt 5) / 2

/-- `invPhi` from `polyhedra/dodecahedron.ts`. -/
noncomputable def dodInvPhi : ℝ := 1 / dodPhi

/-- `dodScale = phi / 2` from `polyhedra/dodecahedron.ts`. -/
noncomputable def dodScale : ℝ := dodPhi / 2

/-- `DOD_VERTICES_RAW` of `polyhedra/dodecahedron.ts` with the source's
formulas: each raw coordinate multiplied by `dodScale`. -/
noncomputable def dodVerticesR : List V3 :=
  [⟨1 * dodScale, 1 * dodScale, 1 * dodScale⟩,
   ⟨1 * dodScale, 1 * dodScale, -1 * dodScale⟩,
   ⟨1 * dodScale, -1 * dodScale, 1 * dodScale⟩,
   ⟨1 * dodScale, -1 * dodScale, -1 * dodScale⟩,
   ⟨-1 * dodScale, 1 * dodScale, 1 * dodScale⟩,
   ⟨-1 * dodScale, 1 * dodScale, -1 * dodScale⟩,
   ⟨-1 * dodScale, -1 * dodScale, 1 * dodScale⟩,
   ⟨-1 * dodScale, -1 * dodScale, -1 * dodScale⟩,
   ⟨0 * dodScale, dodPhi * dodScale, dodInvPhi * dodScale⟩,
   ⟨0 * dodScale, dodPhi * dodScale, -dodInvPhi * dodScale⟩,
   ⟨0 * dodScale, -dodPhi * dodScale, dodInvPhi * dodScale⟩,
   ⟨0 * dodScale, -dodPhi * dodScale, -dodInvPhi * dodScale⟩,
   ⟨dodInvPhi * dodScale, 0 * dodScale, dodPhi * dodScale⟩,
   ⟨-dodInvPhi * dodScale, 0 * dodScale, dodPhi * dodScale⟩,
   ⟨dodInvPhi * dodScale, 0 * dodScale, -dodPhi * dodScale⟩,
   ⟨-dodInvPhi * dodScale, 0 * dodScale, -dodPhi * dodScale⟩,
   ⟨dodPhi * dodScale, dodInvPhi * dodScale, 0 * dodScale⟩,
   ⟨dodPhi * dodScale, -dodInvPhi * dodScale, 0 * dodScale⟩,
   ⟨-dodPhi * dodScale, dodInvPhi * dodScale, 0 * dodScale⟩,
   ⟨-dodPhi * dodScale, -dodInvPhi * dodScale, 0 * dodScale⟩]

/-- The adjacency relation of `computeFaces` over the real vertex
coordinates: pairwise distance within `eps = 0.01` of the edge length 1. -/
noncomputable def adjR (i j : ℕ) : Prop :=
  i ≠ j ∧ |((dodVK i).toV3).distanceTo ((dodVK j).toV3) - 1| < 0.01

/-- The real plane normal of a candidate face from its first three
vertices, as computed (up to the source's final normalization) in
`computeFaces`. -/
noncomputable def realFaceNormal (face : List ℕ) : V3 :=
  V3.cross ((dodVK (face.getD 1 0)).toV3 - (dodVK (face.getD 0 0)).toV3)
    ((dodVK (face.getD 2 0)).toV3 - (dodVK (face.getD 0 0)).toV3)

/-- The real coplanarity property checked by `computeFaces`: every vertex
of the face is within `eps = 0.01` of the plane through the first three
(distance measured against the normalized plane normal). -/
noncomputable def coplanarR (face : List ℕ) : Prop :=
  ∀ vi ∈ face,
    |V3.dot ((dodVK vi).toV3 - (dodVK (face.getD 0 0)).toV3)
      (V3.normalize (realFaceNormal face))| ≤ 0.01

/-- The real face center (`center = Σ vᵢ / 5` in `computeFaces`). -/
noncomputable def realFaceCenter (face : List ℕ) : V3 :=
  ((1 : ℝ) / 5) • face.foldl (fun acc vi => acc + (dodVK vi).kreal)
    ⟨0, 0, 0⟩

/-- The real outward-winding quantity: the dot product of the face's plane
normal with its center direction (positive scalings of the normalized
vectors the source compares). -/
noncomputable def windDotR (face : List ℕ) : ℝ :=
  V3.dot (realFaceNormal face) (((1 : ℝ) / 4) • realFaceCenter face)

/-! ## Theorems -/

/-! ### Basic vector algebra -/

theorem V3.lengthSq_nonneg (v : V3) : 0 ≤ v.lengthSq := by
  unfold V3.lengthSq
  nlinarith [mul_self_nonneg v.x, mul_self_nonneg v.y, mul_self_nonneg v.z]

theorem V3.length_nonneg (v : V3) : 0 ≤ v.length := Real.sqrt_nonneg _

theorem V3.sq_distanceTo (a b : V3) :
    a.distanceTo b * a.distanceTo b = (a - b).lengthSq := by
  unfold V3.distanceTo V3.length
  exact Real.mul_self_sqrt (V3.lengthSq_nonneg _)

theorem V3.lengthSq_smul (s : ℝ) (v : V3) :
    (s • v).lengthSq = s * s * v.lengthSq := by
  unfold V3.lengthSq
  simp
  ring

theorem V3.lengthSq_eq_zero_iff (v : V3) : v.lengthSq = 0 ↔ v = 0 := by
  unfold V3.lengthSq
  constructor
  · intro h
    have hx : v.x = 0 := by nlinarith [sq_nonneg v.x, sq_nonneg v.y, sq_nonneg v.z]
    have hy : v.y = 0 := by nlinarith [sq_nonneg v.x, sq_nonneg v.y, sq_nonneg v.z]
    have hz : v.z = 0 := by nlinarith [sq_nonneg v.x, sq_nonneg v.y, sq_nonneg v.z]
    exact V3.ext hx hy hz
  · intro h
    subst h
    simp

theorem V3.length_eq_zero_iff (v : V3) : v.length = 0 ↔ v.lengthSq = 0 := by
  unfold V3.length
  rw [Real.sqrt_eq_zero (V3.lengthSq_nonneg v)]

theorem V3.dot_smul_right (s : ℝ) (a b : V3) :
    a.dot (s • b) = s * a.dot b := by
  unfold V3.dot
  simp
  ring

theorem V3.dot_smul_left (s : ℝ) (a b : V3) :
    (s • a).dot b = s * a.dot b := by
  unfold V3.dot
  simp
  ring

theorem V3.cross_smul_smul (s t : ℝ) (a b : V3) :
    V3.cross (s • a) (t • b) = (s * t) • V3.cross a b := by
  unfold V3.cross
  apply V3.ext <;> simp <;> ring

theorem V3.smul_sub_smul (s : ℝ) (a b : V3) :
    s • a - s • b = s • (a - b) := by
  apply V3.ext <;> simp <;> ring

theorem V3.dot_self_eq_lengthSq (v : V3) : v.dot v = v.lengthSq := rfl

/-! ### ℤ[√5] bridges -/

theorem K5.toReal_add (u v : K5) : (u.add v).toReal = u.toReal + v.toReal := by
  unfold K5.toReal K5.add
  push_cast
  ring

theorem K5.toReal_neg (u : K5) : u.neg.toReal = -u.toReal := by
  unfold K5.toReal K5.neg
  push_cast
  ring

theorem K5.toReal_sub (u v : K5) : (u.sub v).toReal = u.toReal - v.toReal := by
  unfold K5.sub
  rw [K5.toReal_add, K5.toReal_neg]
  ring

theorem K5.toReal_mul (u v : K5) : (u.mul v).toReal = u.toReal * v.toReal := by
  have h5 : Real.sqrt 5 * Real.sqrt 5 = 5 := Real.mul_self_sqrt (by norm_num)
  unfold K5.toReal K5.mul
  push_cast
  linear_combination (-((u.b : ℝ) * v.b)) * h5

theorem K5.toReal_ofInt (n : ℤ) : (K5.ofInt n).toReal = n := by
  unfold K5.toReal K5.ofInt
  simp

theorem K5.nnegB_iff (u : K5) : u.nnegB = true ↔ 0 ≤ u.toReal := by
  have hs : (0 : ℝ) ≤ Real.sqrt 5 := Real.sqrt_nonneg 5
  have h5 : Real.sqrt 5 * Real.sqrt 5 = 5 := Real.mul_self_sqrt (by norm_num)
  unfold K5.nnegB K5.toReal
  split_ifs with ha hb hb
  · simp only [true_iff]
    have ha2 : (0 : ℝ) ≤ u.a := by exact_mod_cast ha
    have hb2 : (0 : ℝ) ≤ u.b := by exact_mod_cast hb
    positivity
  · rw [decide_eq_true_iff]
    have ha2 : (0 : ℝ) ≤ u.a := by exact_mod_cast ha
    have hb2 : (u.b : ℝ) < 0 := by exact_mod_cast not_le.mp hb
    have key : (-u.b : ℝ) * Real.sqrt 5 ≤ u.a ↔
        5 * ((u.b : ℝ) * u.b) ≤ (u.a : ℝ) * u.a := by
      rw [mul_self_le_mul_self_iff (mul_nonneg (by linarith) hs) ha2]
      constructor <;> intro h <;> nlinarith [h5]
    constructor
    · intro h
      have h2 : (5 : ℝ) * ((u.b : ℝ) * u.b) ≤ (u.a : ℝ) * u.a := by
        exact_mod_cast h
      have := key.mpr h2
      nlinarith
    · intro h
      have h2 : (-u.b : ℝ) * Real.sqrt 5 ≤ u.a := by nlinarith
      exact_mod_cast key.mp h2
  · rw [decide_eq_true_iff]
    have ha2 : (u.a : ℝ) < 0 := by exact_mod_cast not_le.mp ha
    have hb2 : (0 : ℝ) ≤ u.b := by exact_mod_cast hb
    have key : (-u.a : ℝ) ≤ (u.b : ℝ) * Real.sqrt 5 ↔
        (u.a : ℝ) * u.a ≤ 5 * ((u.b : ℝ) * u.b) := by
      rw [show (u.a : ℝ) * u.a = (-u.a) * (-u.a) by ring]
      rw [mul_self_le_mul_self_iff (by linarith) (mul_nonneg hb2 hs)]
      constructor <;> intro h <;> nlinarith [h5]
    constructor
    · intro h
      have h2 : (u.a : ℝ) * u.a ≤ 5 * ((u.b : ℝ) * u.b) := by exact_mod_cast h
      have := key.mpr h2
      nlinarith
    · intro h
      have h2 : (-u.a : ℝ) ≤ (u.b : ℝ) * Real.sqrt 5 := by nlinarith
      exact_mod_cast key.mp h2
  · simp only [Bool.false_eq_true, false_iff, not_le]
    have ha2 : (u.a : ℝ) < 0 := by exact_mod_cast not_le.mp ha
    have hb2 : (u.b : ℝ) < 0 := by exact_mod_cast not_le.mp hb
    nlinarith

theorem K5.leB_iff (u v : K5) : K5.leB u v = true ↔ u.toReal ≤ v.toReal := by
  unfold K5.leB
  rw [K5.nnegB_iff, K5.toReal_sub]
  constructor <;> intro h <;> linarith

theorem K5.ltB_iff (u v : K5) : K5.ltB u v = true ↔ u.toReal < v.toReal := by
  unfold K5.ltB
  rw [Bool.not_eq_true']
  rw [← Bool.not_eq_true (K5.nnegB (u.sub v))]
  constructor
  · intro h
    have h2 : ¬ 0 ≤ (u.sub v).toReal := fun hle => h ((K5.nnegB_iff _).mpr hle)
    rw [K5.toReal_sub] at h2
    linarith [not_le.mp h2]
  · intro h hb
    have := (K5.nnegB_iff _).mp hb
    rw [K5.toReal_sub] at this
    linarith

theorem KV3.kreal_add (u v : KV3) :
    (KV3.add u v).kreal = u.kreal + v.kreal := by
  apply V3.ext <;> simp [KV3.kreal, KV3.add, K5.toReal_add]

theorem KV3.kreal_sub (u v : KV3) :
    (KV3.sub u v).kreal = u.kreal - v.kreal := by
  apply V3.ext <;> simp [KV3.kreal, KV3.sub, K5.toReal_sub]

theorem KV3.kreal_cross (u v : KV3) :
    (KV3.cross u v).kreal = V3.cross u.kreal v.kreal := by
  apply V3.ext <;>
    simp [KV3.kreal, KV3.cross, V3.cross, K5.toReal_sub, K5.toReal_mul]

theorem KV3.toReal_dot (u v : KV3) :
    (KV3.dot u v).toReal = V3.dot u.kreal v.kreal := by
  simp [KV3.dot, V3.dot, KV3.kreal, K5.toReal_add, K5.toReal_mul]

theorem KV3.toReal_normSq (u : KV3) :
    (KV3.normSq u).toReal = u.kreal.lengthSq := by
  rw [KV3.normSq, KV3.toReal_dot, V3.dot_self_eq_lengthSq]

theorem V3.smul_smul_assoc (s t : ℝ) (v : V3) : s • t • v = (s * t) • v := by
  apply V3.ext <;> simp <;> ring

theorem V3.one_smul_eq (v : V3) : (1 : ℝ) • v = v := by
  apply V3.ext <;> simp

/-! ### Dodecahedron: relating the exact decisions to the real geometry -/

/-- The scaled squared vertex distance represents 16× the real one. -/
theorem sqDistK_toReal (i j : ℕ) :
    (sqDistK i j).toReal =
      16 * (((dodVK i).toV3).distanceTo ((dodVK j).toV3) *
        ((dodVK i).toV3).distanceTo ((dodVK j).toV3)) := by
  rw [V3.sq_distanceTo]
  unfold sqDistK
  rw [KV3.toReal_normSq, KV3.kreal_sub]
  unfold KV3.toV3
  rw [V3.smul_sub_smul, V3.lengthSq_smul]
  ring

/-- The computable adjacency decision coincides with the source's
real-number test `|distance − 1| < 0.01`. -/
theorem adjB_iff (i j : ℕ) : adjB i j = true ↔ adjR i j := by
  have hd : 0 ≤ ((dodVK i).toV3).distanceTo ((dodVK j).toV3) :=
    V3.length_nonneg _
  have hsq := sqDistK_toReal i j
  unfold adjB adjR
  simp only [Bool.and_eq_true, decide_eq_true_iff, K5.ltB_iff, K5.toReal_mul,
    K5.toReal_ofInt]
  set d := ((dodVK i).toV3).distanceTo ((dodVK j).toV3) with hdef
  constructor
  · rintro ⟨⟨hne, h1⟩, h2⟩
    refine ⟨hne, ?_⟩
    rw [hsq] at h1 h2
    push_cast at h1 h2
    have l1 : (0.99 : ℝ) < d :=
      (mul_self_lt_mul_self_iff (by norm_num : (0 : ℝ) ≤ 0.99) hd).mpr
        (by nlinarith)
    have l2 : d < 1.01 := by
      by_contra hcon
      push_neg at hcon
      nlinarith
    rw [abs_lt]
    constructor <;> linarith
  · rintro ⟨hne, habs⟩
    rw [abs_lt] at habs
    have l1 : (0.99 : ℝ) < d := by linarith [habs.1]
    have l2 : d < 1.01 := by linarith [habs.2]
    have hdd1 : (0.99 : ℝ) * 0.99 < d * d := by nlinarith
    have hdd2 : d * d < 1.01 * 1.01 := by nlinarith
    exact ⟨⟨hne, by rw [hsq]; push_cast; nlinarith⟩,
      by rw [hsq]; push_cast; nlinarith⟩

/-- `|w · normalize N| ≤ eps` squared away, including the `normalize 0 = 0`
convention. -/
theorem abs_dot_normalize_le_iff (w N : V3) (eps : ℝ) (heps : 0 ≤ eps) :
    |V3.dot w (V3.normalize N)| ≤ eps ↔
      V3.dot w N * V3.dot w N ≤ eps * eps * N.lengthSq := by
  unfold V3.normalize
  by_cases hzero : N.length = 0
  · have hsq : N.lengthSq = 0 := (V3.length_eq_zero_iff N).mp hzero
    have hN : N = 0 := (V3.lengthSq_eq_zero_iff N).mp hsq
    subst hN
    have hdz : V3.dot w (0 : V3) = 0 := by simp [V3.dot]
    rw [if_pos hzero, V3.dot_smul_right, hdz]
    simp [abs_of_nonneg, heps, V3.lengthSq]
  · rw [if_neg hzero]
    have hl : 0 < N.length := lt_of_le_of_ne (V3.length_nonneg N) (Ne.symm hzero)
    rw [V3.dot_smul_right]
    have hll : N.length * N.length = N.lengthSq :=
      Real.mul_self_sqrt (V3.lengthSq_nonneg N)
    rw [abs_mul, abs_of_pos (by positivity : (0 : ℝ) < 1 / N.length)]
    rw [show (1 / N.length) * |V3.dot w N| = |V3.dot w N| / N.length by ring]
    rw [div_le_iff hl]
    rw [mul_self_le_mul_self_iff (abs_nonneg _) (mul_nonneg heps hl.le)]
    rw [abs_mul_abs_self]
    constructor <;> intro h <;> nlinarith

/-- The unnormalized K-plane-normal represents 16× the real one. -/
theorem kreal_faceNormalK (face : List ℕ) :
    (faceNormalK face).kreal = (16 : ℝ) • realFaceNormal face := by
  unfold faceNormalK realFaceNormal
  rw [KV3.kreal_cross, KV3.kreal_sub, KV3.kreal_sub]
  unfold KV3.toV3
  rw [V3.smul_sub_smul, V3.smul_sub_smul, V3.cross_smul_smul,
    V3.smul_smul_assoc]
  norm_num
  rw [V3.one_smul_eq]

/-- The K-offset of a face vertex from the face's first vertex represents
4× the real one. -/
theorem kreal_faceOffset (face : List ℕ) (vi : ℕ) :
    (KV3.sub (dodVK vi) (dodVK (face.getD 0 0))).kreal =
      (4 : ℝ) • ((dodVK vi).toV3 - (dodVK (face.getD 0 0)).toV3) := by
  rw [KV3.kreal_sub]
  unfold KV3.toV3
  rw [V3.smul_sub_smul, V3.smul_smul_assoc]
  norm_num
  rw [V3.one_smul_eq]

/-- The computable coplanarity filter coincides with the source's
real-number test against the normalized plane normal. -/
theorem coplanarB_iff (face : List ℕ) : coplanarB face = true ↔ coplanarR face := by
  unfold coplanarB coplanarR
  rw [List.all_eq_true]
  apply ball_congr
  intro vi _
  simp only [K5.leB_iff, K5.toReal_mul, K5.toReal_ofInt, KV3.toReal_dot,
    KV3.toReal_normSq, kreal_faceNormalK, kreal_faceOffset]
  rw [V3.dot_smul_left, V3.dot_smul_right, V3.lengthSq_smul]
  rw [abs_dot_normalize_le_iff _ _ _ (by norm_num : (0 : ℝ) ≤ 0.01)]
  push_cast
  constructor <;> intro h <;> nlinarith

/-- The φ-formula vertex table of `polyhedra/dodecahedron.ts` coincides
with its exact ℤ[√5] representation. -/
theorem dodVerticesR_eq : dodVerticesR = dodVerticesK.map KV3.toV3 := by
  have h5 : Real.sqrt 5 * Real.sqrt 5 = 5 := Real.mul_self_sqrt (by norm_num)
  have hphi : dodPhi ≠ 0 := by
    unfold dodPhi
    nlinarith [Real.sqrt_nonneg 5]
  have hA : dodScale = (1 + Real.sqrt 5) / 4 := by
    unfold dodScale dodPhi
    ring
  have hB : dodPhi * ((1 + Real.sqrt 5) / 4) = (3 + Real.sqrt 5) / 4 := by
    unfold dodPhi
    linear_combination (1 / 8 : ℝ) * h5
  have h15 : (1 : ℝ) + Real.sqrt 5 ≠ 0 := by positivity
  have hC : dodInvPhi * ((1 + Real.sqrt 5) / 4) = 1 / 2 := by
    unfold dodInvPhi dodPhi
    field_simp
    norm_num
  have hsmul : ∀ (s a b c : ℝ), s • V3.mk a b c = V3.mk (s * a) (s * b) (s * c) :=
    fun s a b c => rfl
  simp only [dodVerticesR, dodVerticesK, List.map_cons, List.map_nil,
    KV3.toV3, KV3.kreal, K5.toReal, neg_mul, one_mul, hA, hsmul]
  simp only [hB, hC]
  norm_num [V3.mk.injEq]
  repeat' constructor
  all_goals ring

/-- The K-winding sign quantity represents 320× the real one. -/
theorem windDot_toReal (face : List ℕ) :
    (windDot face).toReal = 320 * windDotR face := by
  unfold windDot windDotR
  rw [KV3.toReal_dot, kreal_faceNormalK]
  have hsum : (faceCenterSumK face).kreal =
      face.foldl (fun acc vi => acc + (dodVK vi).kreal) ⟨0, 0, 0⟩ := by
    unfold faceCenterSumK
    have key : ∀ (l : List ℕ) (z : KV3),
        (l.foldl (fun acc vi => KV3.add acc (dodVK vi)) z).kreal =
          l.foldl (fun acc vi => acc + (dodVK vi).kreal) z.kreal := by
      intro l
      induction l with
      | nil => intro z; rfl
      | cons h t ih =>
        intro z
        simp only [List.foldl_cons]
        rw [ih, KV3.kreal_add]
    rw [key]
    congr 1
    apply V3.ext <;> simp [KV3.kreal, K5.toReal]
  rw [hsum]
  unfold realFaceCenter
  rw [V3.dot_smul_left, V3.dot_smul_right, V3.dot_smul_right]
  ring

/-- Every command produced by `parseLine` carries that line's number. -/
theorem parseLine_ln (line : List Char) (n : ℕ) (c : PCmd)
    (hc : c ∈ parseLine line n) : c.ln = n := by
  unfold parseLine parseTokens at hc
  split at hc
  · simp at hc
  · split at hc
    · simp at hc
      subst hc
      rfl
    · split at hc
      · simp at hc
        subst hc
        rfl
      · split at hc
        · simp at hc
          subst hc
          rfl
        · split at hc
          · simp at hc
            subst hc
            rfl
          · split at hc
            · simp at hc
              subst hc
              rfl
            · simp at hc

/-- Lines with fewer than two tokens are skipped. -/
theorem parseLine_short (line : List Char) (n : ℕ)
    (h : (tokenize line).length < 2) : parseLine line n = [] := by
  unfold parseLine parseTokens
  rw [if_pos h]

/--
C9, corrected.  The parser guarantees that actually hold in
`parseCommands` (`utils/turtle.ts`):
1. every produced command carries the line number it was parsed with;
2. lines with fewer than two whitespace tokens are skipped;
3. lines whose first token is not a known command word are skipped;
4. a `start` line with fewer than three tokens is skipped;
5. for `fd`/`bk`/`lt`/`rt`, a numeric token that fails to parse defaults
   the command's value to `0` (the `isNaN` guard);
6. every command returned by `parseCommands` carries the 1-based index of
   the source line it came from.
(The `start` coordinates are *not* defaulted to `0`; see the
counterexample.) -/
theorem C9_parser_behavior :
    (∀ line n c, c ∈ parseLine line n → c.ln = n) ∧
    (∀ line n, (tokenize line).length < 2 → parseLine line n = []) ∧
    (∀ line n t0 rest, tokenize line = t0 :: rest →
      t0 ∉ ["start".data, "fd".data, "bk".data, "lt".data, "rt".data] →
      parseLine line n = []) ∧
    (∀ line n t0 rest, tokenize line = t0 :: rest → t0 = "start".data →
      (tokenize line).length < 3 → parseLine line n = []) ∧
    (∀ line n t0 t1 rest, tokenize line = t0 :: t1 :: rest →
      (t0 = "fd".data ∨ t0 = "bk".data ∨ t0 = "lt".data ∨ t0 = "rt".data) →
      parseFloatQ t1 = none →
      ∃ cm, parseLine line n = [cm] ∧ cm.moveVal = some 0 ∧ cm.ln = n) ∧
    (∀ text c, c ∈ parseCommands text →
      1 ≤ c.ln ∧ ∃ line, (splitNl text.data)[c.ln - 1]? = some line ∧
        c ∈ parseLine line c.ln) := by
  refine ⟨parseLine_ln, parseLine_short, ?_, ?_, ?_, ?_⟩
  · intro line n t0 rest ht h0
    unfold parseLine parseTokens
    rw [ht]
    simp only [List.mem_cons, List.mem_singleton, not_or] at h0
    obtain ⟨h1, h2, h3, h4, h5, -⟩ := h0
    split
    · rfl
    · rw [if_neg, if_neg, if_neg, if_neg, if_neg]
      all_goals simp [List.getD, h1, h2, h3, h4, h5]
  · intro line n t0 rest ht hstart hlen
    unfold parseLine parseTokens
    rw [ht] at hlen ⊢
    by_cases h2 : (t0 :: rest).length < 2
    · rw [if_pos h2]
    · rw [if_neg h2,
        if_neg (by simp only [List.getD_cons_zero, not_and]; exact fun _ => by omega),
        if_neg (by simp +decide [List.getD_cons_zero, hstart]),
        if_neg (by simp +decide [List.getD_cons_zero, hstart]),
        if_neg (by simp +decide [List.getD_cons_zero, hstart]),
        if_neg (by simp +decide [List.getD_cons_zero, hstart])]
  · intro line n t0 t1 rest ht hmove hnan
    unfold parseLine parseTokens
    rw [ht]
    have hlen : ¬ (t0 :: t1 :: rest).length < 2 := by simp
    rw [if_neg hlen]
    rcases hmove with h | h | h | h <;> subst h
    · refine ⟨.fd 0 n, ?_, rfl, rfl⟩
      rw [if_neg (by simp +decide [List.getD_cons_zero]),
        if_pos (by simp [List.getD_cons_zero])]
      simp [List.getD_cons_zero, List.getD_cons_succ, hnan]
    · refine ⟨.bk 0 n, ?_, rfl, rfl⟩
      rw [if_neg (by simp +decide [List.getD_cons_zero]),
        if_neg (by simp +decide [List.getD_cons_zero]),
        if_pos (by simp [List.getD_cons_zero])]
      simp [List.getD_cons_zero, List.getD_cons_succ, hnan]
    · refine ⟨.lt 0 n, ?_, rfl, rfl⟩
      rw [if_neg (by simp +decide [List.getD_cons_zero]),
        if_neg (by simp +decide [List.getD_cons_zero]),
        if_neg (by simp +decide [List.getD_cons_zero]),
        if_pos (by simp [List.getD_cons_zero])]
      simp [List.getD_cons_zero, List.getD_cons_succ, hnan]
    · refine ⟨.rt 0 n, ?_, rfl, rfl⟩
      rw [if_neg (by simp +decide [List.getD_cons_zero]),
        if_neg (by simp +decide [List.getD_cons_zero]),
        if_neg (by simp +decide [List.getD_cons_zero]),
        if_neg (by simp +decide [List.getD_cons_zero]),
        if_pos (by simp [List.getD_cons_zero])]
      simp [List.getD_cons_zero, List.getD_cons_succ, hnan]
  · intro text c hc
    unfold parseCommands at hc
    rw [List.mem_flatMap] at hc
    obtain ⟨p, hp, hcp⟩ := hc
    have hln : c.ln = p.1 + 1 := parseLine_ln _ _ _ hcp
    have hget : (splitNl text.data)[p.1]? = some p.2 := by
      have := List.mem_enum_iff_getElem?.mp hp
      simpa using this
    refine ⟨by omega, p.2, ?_, ?_⟩
    · rw [hln]
      simpa using hget
    · rw [hln]
      exact hcp

/-- Witness for C9: on the line `fd abc` the numeric token fails to parse
and the command value defaults to `0` on line 1. -/
theorem C9_parser_behavior_witness :
    tokenize "fd abc".data = ["fd".data, "abc".data] ∧
    parseFloatQ "abc".data = none ∧
    ∃ cm, parseLine "fd abc".data 1 = [cm] ∧
      cm.moveVal = some 0 ∧ cm.ln = 1 := by
  refine ⟨?_, ?_, ?_⟩
  · simp +decide [tokenize, trimChars, splitWsAux]
  · simp +decide [parseFloatQ]
  · exact C9_parser_behavior.2.2.2.2.1 "fd abc".data 1 "fd".data "abc".data []
      (by simp +decide [tokenize, trimChars, splitWsAux]) (Or.inl rfl)
      (by simp +decide [parseFloatQ])

/-- C9 counterexample: contrary to the claim, an unparseable `x` coordinate
of a `start` command is stored as the raw `NaN` result (`none`), not `0`. -/
theorem C9_start_token_not_defaulted :
    parseCommands "start x 1" = [PCmd.start none (some 1) 1] ∧
      (none : Option ℚ) ≠ some 0 := by
  constructor
  · simp +decide [parseCommands, parseLine, parseTokens, tokenize, splitNl,
      trimChars, splitWsAux, parseFloatQ, natOfDigits, List.dropWhile,
      List.takeWhile, List.getD, List.enum, List.enumFrom, List.flatMap]
  · simp

lemma calcFaceAux_spec (q : Quat) (l : List (ℕ × V3)) (bd : ℝ) (bi : ℕ) :
    (calcFaceAux q l (bd, bi) = (bd, bi) ∨
      ∃ p ∈ l, calcFaceAux q l (bd, bi) = (faceDownDot q p.2, p.1)) ∧
    bd ≤ (calcFaceAux q l (bd, bi)).1 ∧
    ∀ p ∈ l, faceDownDot q p.2 ≤ (calcFaceAux q l (bd, bi)).1 := by
  induction l generalizing bd bi with
  | nil => simp [calcFaceAux]
  | cons hd t ih =>
    obtain ⟨idx, c⟩ := hd
    by_cases hlt : bd < faceDownDot q c
    · have hlt' : bd < (c.normalize.applyQuaternion q).dot ⟨0, -1, 0⟩ := hlt
      have hstep : calcFaceAux q ((idx, c) :: t) (bd, bi) =
          calcFaceAux q t (faceDownDot q c, idx) := by
        simp only [calcFaceAux]
        rw [if_pos hlt']
        exact rfl
      obtain ⟨hdisj, hle, hall⟩ := ih (faceDownDot q c) idx
      rw [hstep]
      refine ⟨?_, le_of_lt (lt_of_lt_of_le hlt hle), ?_⟩
      · rcases hdisj with h | ⟨p, hp, hres⟩
        · exact Or.inr ⟨(idx, c), List.mem_cons_self _ _, h⟩
        · exact Or.inr ⟨p, List.mem_cons_of_mem _ hp, hres⟩
      · intro p hp
        rcases List.mem_cons.mp hp with h | h
        · rw [h]; exact hle
        · exact hall p h
    · have hlt' : ¬bd < (c.normalize.applyQuaternion q).dot ⟨0, -1, 0⟩ := hlt
      have hstep : calcFaceAux q ((idx, c) :: t) (bd, bi) =
          calcFaceAux q t (bd, bi) := by
        simp only [calcFaceAux]
        rw [if_neg hlt']
      obtain ⟨hdisj, hle, hall⟩ := ih bd bi
      rw [hstep]
      refine ⟨?_, hle, ?_⟩
      · rcases hdisj with h | ⟨p, hp, hres⟩
        · exact Or.inl h
        · exact Or.inr ⟨p, List.mem_cons_of_mem _ hp, hres⟩
      · intro p hp
        rcases List.mem_cons.mp hp with h | h
        · rw [h]; exact le_trans (not_lt.mp hlt) hle
        · exact hall p h

lemma mem_enum_of_lt {l : List V3} {j : ℕ} (hj : j < l.length) :
    (j, l.getD j 0) ∈ l.enum := by
  rw [List.mem_enum_iff_getElem?, List.getD_eq_getElem l 0 hj,
    List.getElem?_eq_getElem hj]

/--
C2, confirmed.  In `components/Simulation.tsx`, the `useFrame` roll
interpolation at progress fraction 1 yields exactly the pose
`(pivot + qRot·(startPos − pivot), qRot · startQuat)` with
`qRot = setFromAxisAngle axis rollAngle`; and `calculateFaceIndex`
recomputes the resting face from scratch as the 1-based index of the
face center whose rotated, normalized direction has the largest dot
product with `(0,-1,0)` (whenever some face scores above the `-1`
initial best, the returned index is in range and its score is maximal
over all faces). -/
theorem C2_roll_pose_and_face_recompute
    (axis pivot startPos : V3) (startQuat : Quat) (rollAngle : ℝ)
    (faceCenters : List V3) (q : Quat)
    (h : ∃ i, i < faceCenters.length ∧
      -1 < faceDownDot q (faceCenters.getD i 0)) :
    rollPoseAt axis pivot rollAngle startPos startQuat 1 =
      (pivot + (startPos - pivot).applyQuaternion
          (Quat.setFromAxisAngle axis rollAngle),
        Quat.mul (Quat.setFromAxisAngle axis rollAngle) startQuat) ∧
    1 ≤ calculateFaceIndex faceCenters q ∧
    calculateFaceIndex faceCenters q - 1 < faceCenters.length ∧
    ∀ j, j < faceCenters.length →
      faceDownDot q (faceCenters.getD j 0) ≤
        faceDownDot q
          (faceCenters.getD (calculateFaceIndex faceCenters q - 1) 0) := by
  have hkey : calculateFaceIndex faceCenters q - 1 < faceCenters.length ∧
      ∀ j, j < faceCenters.length →
        faceDownDot q (faceCenters.getD j 0) ≤
          faceDownDot q
            (faceCenters.getD (calculateFaceIndex faceCenters q - 1) 0) := by
    obtain ⟨i, hi, hdot⟩ := h
    obtain ⟨hdisj, -, hall⟩ := calcFaceAux_spec q faceCenters.enum (-1) 0
    have hle0 := hall _ (mem_enum_of_lt hi)
    have hgt : -1 < (calcFaceAux q faceCenters.enum (-1, 0)).1 :=
      lt_of_lt_of_le hdot hle0
    rcases hdisj with hres | ⟨p, hp, hres⟩
    · rw [hres] at hgt; exact absurd hgt (lt_irrefl _)
    · rw [List.mem_enum_iff_getElem?] at hp
      have hplen : p.1 < faceCenters.length := by
        rcases List.getElem?_eq_some_iff.mp hp with ⟨hh, -⟩
        exact hh
      have hpval : p.2 = faceCenters.getD p.1 0 := by
        rcases List.getElem?_eq_some_iff.mp hp with ⟨hh, hv⟩
        rw [List.getD_eq_getElem faceCenters 0 hh, hv]
      have hidx : calculateFaceIndex faceCenters q - 1 = p.1 := by
        simp [calculateFaceIndex, hres]
      refine ⟨by rw [hidx]; exact hplen, fun j hj => ?_⟩
      rw [hidx, ← hpval]
      have hjle := hall _ (mem_enum_of_lt hj)
      rw [hres] at hjle
      exact hjle
  exact ⟨by simp only [rollPoseAt]; norm_num,
    Nat.succ_le_succ (Nat.zero_le _), hkey.1, hkey.2⟩

/-- Witness for C2: with two opposite face centers and the identity
orientation, the recomputed face index is in range. -/
theorem C2_roll_pose_and_face_recompute_witness :
    1 ≤ calculateFaceIndex [(⟨0, -1, 0⟩ : V3), ⟨0, 1, 0⟩] Quat.identity ∧
      calculateFaceIndex [(⟨0, -1, 0⟩ : V3), ⟨0, 1, 0⟩] Quat.identity - 1 <
        ([(⟨0, -1, 0⟩ : V3), ⟨0, 1, 0⟩] : List V3).length := by
  have h : ∃ i, i < ([(⟨0, -1, 0⟩ : V3), ⟨0, 1, 0⟩] : List V3).length ∧
      -1 < faceDownDot Quat.identity
        (([(⟨0, -1, 0⟩ : V3), ⟨0, 1, 0⟩] : List V3).getD i 0) := by
    refine ⟨0, by norm_num, ?_⟩
    have hlen : ((⟨0, -1, 0⟩ : V3)).length = 1 := by
      simp [V3.length, V3.lengthSq]
    simp [faceDownDot, V3.normalize, hlen, V3.applyQuaternion, Quat.identity,
      V3.cross, V3.dot]
  have := C2_roll_pose_and_face_recompute 0 0 0 Quat.identity 0
    [(⟨0, -1, 0⟩ : V3), ⟨0, 1, 0⟩] Quat.identity h
  exact ⟨this.2.1, this.2.2.1⟩

set_option maxRecDepth 200000 in
/--
C6, confirmed.  The dodecahedron face-discovery search of
`computeFaces` (`polyhedra/dodecahedron.ts`):
the φ-formula vertex table equals its exact ℤ[√5] transcription; the
search finds exactly 12 faces; every found face is a 5-cycle of the
adjacency graph (pairwise distance within 0.01 of the edge length, by
`adjB_iff` the source's real test) with distinct vertices; every found
face passes the coplanarity tolerance against the normalized plane
normal; the canonical sorted-vertex keys of the 12 faces are pairwise
distinct (rotation/reflection duplicates removed); and every face's
fixed winding has its plane normal pointing outward (nonnegative dot
with the center direction). -/
theorem C6_computeFaces_discovery :
    dodVerticesR = dodVerticesK.map KV3.toV3 ∧
    computeFaces.length = 12 ∧
    (∀ face ∈ computeFaces, face.length = 5 ∧ face.Nodup ∧
      ∀ k, k < 5 → adjR (face.getD k 0) (face.getD ((k + 1) % 5) 0)) ∧
    (∀ face ∈ computeFaces, coplanarR face) ∧
    (computeFaces.map canonKey).Nodup ∧
    (∀ face ∈ computeFaces, 0 ≤ windDotR face) := by
  refine ⟨dodVerticesR_eq, by decide, ?_, ?_, by decide, ?_⟩
  · have hB : (computeFaces.all fun face =>
        decide (face.length = 5) && decide face.Nodup &&
          ((List.range 5).all fun k =>
            adjB (face.getD k 0) (face.getD ((k + 1) % 5) 0))) = true := by
      decide
    intro face hf
    have h := List.all_eq_true.mp hB face hf
    simp only [Bool.and_eq_true, decide_eq_true_iff, List.all_eq_true] at h
    refine ⟨h.1.1, h.1.2, fun k hk => ?_⟩
    exact (adjB_iff _ _).mp (h.2 k (List.mem_range.mpr hk))
  · have hB : (computeFaces.all coplanarB) = true := by decide
    intro face hf
    exact (coplanarB_iff face).mp (List.all_eq_true.mp hB face hf)
  · have hB : (computeFaces.all fun f => K5.nnegB (windDot f)) = true := by
      decide
    intro face hf
    have h0 := (K5.nnegB_iff _).mp (List.all_eq_true.mp hB face hf)
    rw [windDot_toReal] at h0
    linarith

set_option maxRecDepth 200000 in
/-- Witness for C6: the first discovered face, `[0, 8, 4, 13, 12]`, is a
member of the face list and satisfies the coplanarity and outward-winding
properties. -/
theorem C6_computeFaces_discovery_witness :
    [0, 8, 4, 13, 12] ∈ computeFaces ∧ coplanarR [0, 8, 4, 13, 12] ∧
      0 ≤ windDotR [0, 8, 4, 13, 12] :=
  ⟨by decide,
    C6_computeFaces_discovery.2.2.2.1 [0, 8, 4, 13, 12] (by decide),
    C6_computeFaces_discovery.2.2.2.2.2 [0, 8, 4, 13, 12] (by decide)⟩

set_option maxRecDepth 200000 in
/--
C7, code bug.  `computeFaceColorIndices` in `polyhedra/dodecahedron.ts`
discards the boolean result of `solve(0)`: when the backtracking search
fails (first conjunct, on a non-4-colorable face list such as twelve
copies of the same triangle), the function silently returns the all-`-1`
partial assignment instead of signalling a fatal configuration error.
On the actual dodecahedron face list the search happens to succeed and
yields a proper 4-coloring (second and third conjuncts), so the defect is
latent there. -/
theorem C7_coloring_silently_partial :
    computeFaceColorIndices (List.replicate 12 ([0, 1, 2] : List ℕ)) =
      List.replicate 12 (-1) ∧
    (∀ i, i < 12 → (computeFaceColorIndices computeFaces).getD i (-1) ∈
      ([0, 1, 2, 3] : List ℤ)) ∧
    (∀ i, i < 12 → ∀ j, j < 12 → faceAdjB computeFaces i j = true →
      (computeFaceColorIndices computeFaces).getD i (-1) ≠
        (computeFaceColorIndices computeFaces).getD j (-1)) := by
  refine ⟨by decide, by decide, by decide⟩

set_option maxRecDepth 200000 in
/-- Witness for C7: faces 1 and 2 of the dodecahedron are adjacent and
receive distinct colors. -/
theorem C7_coloring_silently_partial_witness :
    faceAdjB computeFaces 0 1 = true ∧
      (computeFaceColorIndices computeFaces).getD 0 (-1) ≠
        (computeFaceColorIndices computeFaces).getD 1 (-1) :=
  ⟨by decide,
    C7_coloring_silently_partial.2.2 0 (by norm_num) 1 (by norm_num)
      (by decide)⟩

/-- A vector whose difference has nonzero squared length is distinct. -/
lemma ne_of_diff_lengthSq {a b : V3} (h : (a - b).lengthSq ≠ 0) : a ≠ b := by
  intro he
  apply h
  rw [he]
  simp [V3.lengthSq]

/-- A unit-length separation passes the `EDGE_LENGTH * 1.05` edge test. -/
lemma dist_lt_of_lengthSq_one {a b : V3} (h : (a - b).lengthSq = 1) :
    a.distanceTo b < EDGE_LENGTH * 1.05 := by
  rw [V3.distanceTo, V3.length, h, Real.sqrt_one, EDGE_LENGTH]
  norm_num

/-- A diagonal separation (squared length 2) fails the edge test. -/
lemma not_dist_lt_of_lengthSq_two {a b : V3} (h : (a - b).lengthSq = 2) :
    ¬a.distanceTo b < EDGE_LENGTH * 1.05 := by
  rw [V3.distanceTo, V3.length, h, EDGE_LENGTH, not_lt]
  rw [show (1 : ℝ) * 1.05 = 1.05 by norm_num]
  rw [show (2 : ℝ) = Real.sqrt 2 * Real.sqrt 2 from (Real.mul_self_sqrt (by norm_num)).symm] at h
  nlinarith [Real.sq_sqrt (show (0:ℝ) ≤ 2 by norm_num), Real.sqrt_nonneg 2]

set_option maxHeartbeats 4000000 in
/-- On any permutation of a unit square's corner list, the cube branch's
pairwise edge test of `updateTargets` accepts exactly the 4 sides. -/
lemma groundEdges_square_length (p0 p1 p2 p3 : V3) (bottom : List V3)
    (hperm : bottom.Perm [p0, p1, p2, p3])
    (hnd : ([p0, p1, p2, p3] : List V3).Nodup)
    (s01 : p0.distanceTo p1 < EDGE_LENGTH * 1.05)
    (s10 : p1.distanceTo p0 < EDGE_LENGTH * 1.05)
    (s12 : p1.distanceTo p2 < EDGE_LENGTH * 1.05)
    (s21 : p2.distanceTo p1 < EDGE_LENGTH * 1.05)
    (s23 : p2.distanceTo p3 < EDGE_LENGTH * 1.05)
    (s32 : p3.distanceTo p2 < EDGE_LENGTH * 1.05)
    (s30 : p3.distanceTo p0 < EDGE_LENGTH * 1.05)
    (s03 : p0.distanceTo p3 < EDGE_LENGTH * 1.05)
    (d02 : ¬p0.distanceTo p2 < EDGE_LENGTH * 1.05)
    (d20 : ¬p2.distanceTo p0 < EDGE_LENGTH * 1.05)
    (d13 : ¬p1.distanceTo p3 < EDGE_LENGTH * 1.05)
    (d31 : ¬p3.distanceTo p1 < EDGE_LENGTH * 1.05) :
    (groundEdges true bottom).length = 4 := by
  have hlen : bottom.length = 4 := by simpa using hperm.length_eq
  obtain ⟨b0, b1, b2, b3, rfl⟩ : ∃ a b c d, bottom = [a, b, c, d] := by
    match bottom, hlen with
    | [a, b, c, d], _ => exact ⟨a, b, c, d, rfl⟩
  have hnd' := hperm.nodup_iff.mpr hnd
  have h0 : b0 ∈ [p0, p1, p2, p3] := hperm.subset (by simp)
  have h1 : b1 ∈ [p0, p1, p2, p3] := hperm.subset (by simp)
  have h2 : b2 ∈ [p0, p1, p2, p3] := hperm.subset (by simp)
  have h3 : b3 ∈ [p0, p1, p2, p3] := hperm.subset (by simp)
  simp only [List.mem_cons, List.not_mem_nil, or_false] at h0 h1 h2 h3
  clear hperm
  rcases h0 with rfl | rfl | rfl | rfl <;>
    rcases h1 with rfl | rfl | rfl | rfl <;>
      rcases h2 with rfl | rfl | rfl | rfl <;>
        rcases h3 with rfl | rfl | rfl | rfl <;>
          simp_all [groundEdges, cubePairs, List.getD]

/--
C3, confirmed.  `updateTargets` in `components/Simulation.tsx` produces
exactly one roll target per ground-polygon edge: 3 for the triangular
base branch and 4 for a cube base whose 4 lowest-Y vertices form a unit
square (recovered by the pairwise `EDGE_LENGTH * 1.05` edge test, which
accepts the 4 sides and rejects the 2 diagonals).  Each produced target
has its pivot at the edge midpoint, axis equal to the normalized cross
product of world up with the normalized horizontal vector `toPivot` from
the floor-projected solid center to the pivot (hence horizontal:
perpendicular to +Y), target floor-cell center `floorCenter + 2·toPivot`,
and direction angle `atan2(toPivot.z, toPivot.x)`. -/
theorem C3_roll_target_solver (isCube : Bool) (wv : List V3) (pos : V3)
    (c u w : V3) (hu : u.lengthSq = 1) (hw : w.lengthSq = 1)
    (huw : u.dot w = 0)
    (hsq : ((sortByY wv).take 4).Perm [c, c + u, c + u + w, c + w]) :
    (updateTargets isCube wv pos).length =
      (groundEdges isCube
        ((sortByY wv).take (if isCube then 4 else 3))).length ∧
    (updateTargets false wv pos).length = 3 ∧
    (updateTargets true wv pos).length = 4 ∧
    ∀ t ∈ updateTargets isCube wv pos,
      ∃ e ∈ groundEdges isCube ((sortByY wv).take (if isCube then 4 else 3)),
        t.point = (0.5 : ℝ) • (e.1 + e.2) ∧
        t.axis = (V3.cross ⟨0, 1, 0⟩
          (t.point - ⟨pos.x, 0, pos.z⟩).normalize).normalize ∧
        t.targetCenter =
          (⟨pos.x, 0, pos.z⟩ : V3) + (2 : ℝ) • (t.point - ⟨pos.x, 0, pos.z⟩) ∧
        t.directionAngle = atan2 (t.point - ⟨pos.x, 0, pos.z⟩).z
          (t.point - ⟨pos.x, 0, pos.z⟩).x ∧
        t.axis.dot ⟨0, 1, 0⟩ = 0 := by
  simp only [V3.lengthSq] at hu hw
  simp only [V3.dot] at huw
  have e01 : (c - (c + u)).lengthSq = 1 := by
    simp only [V3.lengthSq, V3.sub_x, V3.sub_y, V3.sub_z, V3.add_x, V3.add_y,
      V3.add_z]
    linear_combination hu
  have e10 : ((c + u) - c).lengthSq = 1 := by
    simp only [V3.lengthSq, V3.sub_x, V3.sub_y, V3.sub_z, V3.add_x, V3.add_y,
      V3.add_z]
    linear_combination hu
  have e12 : ((c + u) - (c + u + w)).lengthSq = 1 := by
    simp only [V3.lengthSq, V3.sub_x, V3.sub_y, V3.sub_z, V3.add_x, V3.add_y,
      V3.add_z]
    linear_combination hw
  have e21 : ((c + u + w) - (c + u)).lengthSq = 1 := by
    simp only [V3.lengthSq, V3.sub_x, V3.sub_y, V3.sub_z, V3.add_x, V3.add_y,
      V3.add_z]
    linear_combination hw
  have e23 : ((c + u + w) - (c + w)).lengthSq = 1 := by
    simp only [V3.lengthSq, V3.sub_x, V3.sub_y, V3.sub_z, V3.add_x, V3.add_y,
      V3.add_z]
    linear_combination hu
  have e32 : ((c + w) - (c + u + w)).lengthSq = 1 := by
    simp only [V3.lengthSq, V3.sub_x, V3.sub_y, V3.sub_z, V3.add_x, V3.add_y,
      V3.add_z]
    linear_combination hu
  have e30 : ((c + w) - c).lengthSq = 1 := by
    simp only [V3.lengthSq, V3.sub_x, V3.sub_y, V3.sub_z, V3.add_x, V3.add_y,
      V3.add_z]
    linear_combination hw
  have e03 : (c - (c + w)).lengthSq = 1 := by
    simp only [V3.lengthSq, V3.sub_x, V3.sub_y, V3.sub_z, V3.add_x, V3.add_y,
      V3.add_z]
    linear_combination hw
  have e02 : (c - (c + u + w)).lengthSq = 2 := by
    simp only [V3.lengthSq, V3.sub_x, V3.sub_y, V3.sub_z, V3.add_x, V3.add_y,
      V3.add_z]
    linear_combination hu + hw + 2 * huw
  have e20 : ((c + u + w) - c).lengthSq = 2 := by
    simp only [V3.lengthSq, V3.sub_x, V3.sub_y, V3.sub_z, V3.add_x, V3.add_y,
      V3.add_z]
    linear_combination hu + hw + 2 * huw
  have e13 : ((c + u) - (c + w)).lengthSq = 2 := by
    simp only [V3.lengthSq, V3.sub_x, V3.sub_y, V3.sub_z, V3.add_x, V3.add_y,
      V3.add_z]
    linear_combination hu + hw - 2 * huw
  have e31 : ((c + w) - (c + u)).lengthSq = 2 := by
    simp only [V3.lengthSq, V3.sub_x, V3.sub_y, V3.sub_z, V3.add_x, V3.add_y,
      V3.add_z]
    linear_combination hu + hw - 2 * huw
  have hnd : ([c, c + u, c + u + w, c + w] : List V3).Nodup := by
    refine List.nodup_cons.mpr ⟨?_, List.nodup_cons.mpr ⟨?_,
      List.nodup_cons.mpr ⟨?_, List.nodup_singleton _⟩⟩⟩
    · intro hmem
      rcases List.mem_cons.mp hmem with h | hmem
      · exact ne_of_diff_lengthSq (by rw [e01]; norm_num) h
      rcases List.mem_cons.mp hmem with h | hmem
      · exact ne_of_diff_lengthSq (by rw [e02]; norm_num) h
      rcases List.mem_cons.mp hmem with h | hmem
      · exact ne_of_diff_lengthSq (by rw [e03]; norm_num) h
      · exact absurd hmem (List.not_mem_nil _)
    · intro hmem
      rcases List.mem_cons.mp hmem with h | hmem
      · exact ne_of_diff_lengthSq (by rw [e12]; norm_num) h
      rcases List.mem_cons.mp hmem with h | hmem
      · exact ne_of_diff_lengthSq (by rw [e13]; norm_num) h
      · exact absurd hmem (List.not_mem_nil _)
    · intro hmem
      rcases List.mem_cons.mp hmem with h | hmem
      · exact ne_of_diff_lengthSq (by rw [e23]; norm_num) h
      · exact absurd hmem (List.not_mem_nil _)
  have hcube : (groundEdges true ((sortByY wv).take 4)).length = 4 :=
    groundEdges_square_length c (c + u) (c + u + w) (c + w) _ hsq hnd
      (dist_lt_of_lengthSq_one e01) (dist_lt_of_lengthSq_one e10)
      (dist_lt_of_lengthSq_one e12) (dist_lt_of_lengthSq_one e21)
      (dist_lt_of_lengthSq_one e23) (dist_lt_of_lengthSq_one e32)
      (dist_lt_of_lengthSq_one e30) (dist_lt_of_lengthSq_one e03)
      (not_dist_lt_of_lengthSq_two e02) (not_dist_lt_of_lengthSq_two e20)
      (not_dist_lt_of_lengthSq_two e13) (not_dist_lt_of_lengthSq_two e31)
  refine ⟨by simp [updateTargets], by simp [updateTargets, groundEdges],
    by simpa [updateTargets] using hcube, ?_⟩
  intro t ht
  simp only [updateTargets] at ht
  rw [List.mem_map] at ht
  obtain ⟨e, he, rfl⟩ := ht
  refine ⟨e, he, rfl, rfl, rfl, rfl, ?_⟩
  simp [mkRollTarget, V3.cross, V3.normalize, V3.dot]

/-- Witness for C3: an axis-aligned unit square of bottom vertices yields
exactly 4 roll targets in the cube branch. -/
theorem C3_roll_target_solver_witness :
    (updateTargets true
      [⟨0, 0, 0⟩, ⟨1, 0, 0⟩, ⟨1, 0, 1⟩, ⟨0, 0, 1⟩] ⟨0, 0.5, 0⟩).length = 4 := by
  have hsq : ((sortByY
      [(⟨0, 0, 0⟩ : V3), ⟨1, 0, 0⟩, ⟨1, 0, 1⟩, ⟨0, 0, 1⟩]).take 4).Perm
      [(⟨0, 0, 0⟩ : V3), ⟨0, 0, 0⟩ + ⟨1, 0, 0⟩,
        ⟨0, 0, 0⟩ + ⟨1, 0, 0⟩ + ⟨0, 0, 1⟩, ⟨0, 0, 0⟩ + ⟨0, 0, 1⟩] := by
    have hs : sortByY [(⟨0, 0, 0⟩ : V3), ⟨1, 0, 0⟩, ⟨1, 0, 1⟩, ⟨0, 0, 1⟩] =
        [(⟨0, 0, 0⟩ : V3), ⟨1, 0, 0⟩, ⟨1, 0, 1⟩, ⟨0, 0, 1⟩] := by
      norm_num [sortByY, insertByY, List.foldl]
    rw [hs]
    have hr : [(⟨0, 0, 0⟩ : V3), ⟨0, 0, 0⟩ + ⟨1, 0, 0⟩,
        ⟨0, 0, 0⟩ + ⟨1, 0, 0⟩ + ⟨0, 0, 1⟩, ⟨0, 0, 0⟩ + ⟨0, 0, 1⟩] =
        [(⟨0, 0, 0⟩ : V3), ⟨1, 0, 0⟩, ⟨1, 0, 1⟩, ⟨0, 0, 1⟩] := by
      norm_num [V3.mk.injEq, V3.ext_iff]
    rw [hr]
    rfl
  exact (C3_roll_target_solver true
    [⟨0, 0, 0⟩, ⟨1, 0, 0⟩, ⟨1, 0, 1⟩, ⟨0, 0, 1⟩] ⟨0, 0.5, 0⟩
    ⟨0, 0, 0⟩ ⟨1, 0, 0⟩ ⟨0, 0, 1⟩
    (by norm_num [V3.lengthSq]) (by norm_num [V3.lengthSq])
    (by norm_num [V3.dot]) hsq).2.2.1

lemma sqrt_quarter : Real.sqrt (1 / 4) = 1 / 2 := by
  rw [show (1 / 4 : ℝ) = (1 / 2) ^ 2 by norm_num,
    Real.sqrt_sq (by norm_num : (0 : ℝ) ≤ 1 / 2)]

lemma sqrt_four : Real.sqrt 4 = 2 := by
  rw [show (4 : ℝ) = 2 ^ 2 by norm_num, Real.sqrt_sq (by norm_num : (0 : ℝ) ≤ 2)]

lemma dc_face1_heading :
    initialHeadingOf ⟨1, ⟨0, -(1 / 2), 0⟩, ⟨0, -1, 0⟩, dcSquareVertices⟩ =
      ⟨0, 0, -1⟩ := by
  norm_num [initialHeadingOf, dcSquareVertices, V3.normalize, V3.length,
    V3.lengthSq, sqrt_quarter, sqrt_four, V3.ext_iff]

lemma dc_vhit1 :
    findVertexHit ⟨1, ⟨0, -(1 / 2), 0⟩, ⟨0, -1, 0⟩, dcSquareVertices⟩
      ⟨0, -(1 / 2), 0⟩ ⟨0, 0, -1⟩ = none := by
  norm_num [findVertexHit, findVertexHitAux, dcSquareVertices, List.enum,
    List.enumFrom, V3.dot, V3.distanceTo, V3.length, V3.lengthSq, sqrt_quarter,
    sqrt_four]

lemma range_four : List.range 4 = [0, 1, 2, 3] := rfl

lemma dc_ehit1 :
    findEdgeHit ⟨1, ⟨0, -(1 / 2), 0⟩, ⟨0, -1, 0⟩, dcSquareVertices⟩
      ⟨0, -(1 / 2), 0⟩ ⟨0, 0, -1⟩ = some ⟨1 / 2, 0⟩ := by
  norm_num [findEdgeHit, findEdgeHitAux, dcSquareVertices, range_four,
    List.getD, V3.dot, V3.cross, V3.normalize, V3.length, V3.lengthSq,
    sqrt_quarter, sqrt_four, Real.sqrt_one]

lemma dc_rev : dcSquareVertices.reverse =
    [⟨-(1 / 2), -(1 / 2), 1 / 2⟩, ⟨1 / 2, -(1 / 2), 1 / 2⟩,
     ⟨1 / 2, -(1 / 2), -(1 / 2)⟩, ⟨-(1 / 2), -(1 / 2), -(1 / 2)⟩] := by
  simp [dcSquareVertices]

lemma dc_adj :
    getAdjacentFace
      [⟨1, ⟨0, -(1 / 2), 0⟩, ⟨0, -1, 0⟩, dcSquareVertices⟩,
       ⟨2, ⟨0, -(1 / 2), 0⟩, ⟨0, 1, 0⟩, dcSquareVertices.reverse⟩]
      ⟨1, ⟨0, -(1 / 2), 0⟩, ⟨0, -1, 0⟩, dcSquareVertices⟩
      ⟨-(1 / 2), -(1 / 2), -(1 / 2)⟩ ⟨1 / 2, -(1 / 2), -(1 / 2)⟩ =
      some ⟨2, ⟨0, -(1 / 2), 0⟩, ⟨0, 1, 0⟩, dcSquareVertices.reverse⟩ := by
  norm_num [getAdjacentFace, dcSquareFaces, findP, dc_rev, dcSquareVertices,
    V3.distanceTo, V3.length, V3.lengthSq, Real.sqrt_zero]

lemma sin_pi_mul_neg_half : Real.sin (-Real.pi / 2) = -1 := by
  rw [show -Real.pi / 2 = -(Real.pi / 2) by ring, Real.sin_neg,
    Real.sin_pi_div_two]

lemma cos_pi_mul_neg_half : Real.cos (-Real.pi / 2) = 0 := by
  rw [show -Real.pi / 2 = -(Real.pi / 2) by ring, Real.cos_neg,
    Real.cos_pi_div_two]

lemma dc_cross :
    crossEdge ⟨1, ⟨0, -(1 / 2), -(1 / 2)⟩, ⟨0, 0, -1⟩⟩
      ⟨1, ⟨0, -(1 / 2), 0⟩, ⟨0, -1, 0⟩, dcSquareVertices⟩
      ⟨2, ⟨0, -(1 / 2), 0⟩, ⟨0, 1, 0⟩, dcSquareVertices.reverse⟩
      ⟨-(1 / 2), -(1 / 2), -(1 / 2)⟩ ⟨1 / 2, -(1 / 2), -(1 / 2)⟩ =
      ⟨2, ⟨0, -(1 / 2), -(499 / 1000)⟩, ⟨0, 0, 1⟩⟩ := by
  norm_num [crossEdge, V3.angleTo, V3.applyQuaternion, Quat.setFromAxisAngle,
    V3.normalize, V3.length, V3.lengthSq, V3.dot, V3.cross, Real.sqrt_one,
    Real.arccos_neg_one, sin_pi_mul_neg_half, cos_pi_mul_neg_half,
    TurtleState.mk.injEq, V3.ext_iff]

lemma smul_mk (s a b c : ℝ) : s • V3.mk a b c = V3.mk (s * a) (s * b) (s * c) := rfl

lemma add_mk (a b c d e f : ℝ) :
    V3.mk a b c + V3.mk d e f = V3.mk (a + d) (b + e) (c + f) := rfl

lemma sub_mk (a b c d e f : ℝ) :
    V3.mk a b c - V3.mk d e f = V3.mk (a - d) (b - e) (c - f) := rfl

lemma dc_vhit2 :
    findVertexHit ⟨2, ⟨0, -(1 / 2), 0⟩, ⟨0, 1, 0⟩, dcSquareVertices.reverse⟩
      ⟨0, -(1 / 2), -(499 / 1000)⟩ ⟨0, 0, 1⟩ = none := by
  norm_num [findVertexHit, findVertexHitAux, dcSquareVertices, List.enum,
    List.enumFrom, V3.dot, V3.distanceTo, V3.length, V3.lengthSq, sqrt_quarter,
    sqrt_four]

lemma dc_ehit2 :
    findEdgeHit ⟨2, ⟨0, -(1 / 2), 0⟩, ⟨0, 1, 0⟩, dcSquareVertices.reverse⟩
      ⟨0, -(1 / 2), -(499 / 1000)⟩ ⟨0, 0, 1⟩ = some ⟨999 / 1000, 0⟩ := by
  norm_num [findEdgeHit, findEdgeHitAux, dcSquareVertices, range_four,
    List.getD, V3.dot, V3.cross, V3.normalize, V3.length, V3.lengthSq,
    sqrt_quarter, sqrt_four, Real.sqrt_one]

lemma dcv_len : dcSquareVertices.length = 4 := rfl

lemma dcv_get0 : dcSquareVertices.getD 0 0 = ⟨-(1 / 2), -(1 / 2), -(1 / 2)⟩ := rfl

lemma dcv_get1 : dcSquareVertices.getD 1 0 = ⟨1 / 2, -(1 / 2), -(1 / 2)⟩ := rfl

lemma dc_fd1_move :
    moveTurtle dcSquareFaces ⟨1, ⟨0, -(1 / 2), 0⟩, ⟨0, 0, -1⟩⟩ 1
      [⟨0, -(103 / 200), 0⟩] =
      ⟨⟨2, ⟨0, -(1 / 2), 1 / 1000⟩, ⟨0, 0, 1⟩⟩,
       [⟨0, -(103 / 200), 0⟩, ⟨0, -(103 / 200), -(1 / 2)⟩,
        ⟨0, -(97 / 200), -(499 / 1000)⟩, ⟨0, -(97 / 200), 1 / 1000⟩],
       none⟩ := by
  rw [moveTurtle, show jsSign 1 = (1 : ℝ) by norm_num [jsSign], abs_one,
    show (100 : ℕ) = 97 + 1 + 1 + 1 from rfl]
  norm_num [moveLoop, moveLoopEdge, dcSquareFaces, findP, dc_vhit1, dc_ehit1,
    dc_adj, dc_cross, dc_vhit2, dc_ehit2, offsetPoint, dcv_len, dcv_get0,
    dcv_get1, smul_mk, add_mk, sub_mk, V3.ext_iff,
    -List.getD_eq_getElem?_getD]

lemma dc_findP1 :
    findP (fun f => f.index = 1) dcSquareFaces =
      some ⟨1, ⟨0, -(1 / 2), 0⟩, ⟨0, -1, 0⟩, dcSquareVertices⟩ := by
  norm_num [findP, dcSquareFaces]

lemma dc_fd1_path :
    generatePath dcSquareFaces [TCmd.fd 1 1] =
      ⟨[[⟨0, -(103 / 200), 0⟩, ⟨0, -(103 / 200), -(1 / 2)⟩,
         ⟨0, -(97 / 200), -(499 / 1000)⟩, ⟨0, -(97 / 200), 1 / 1000⟩]],
       none⟩ := by
  norm_num [generatePath, dc_findP1, genLoop, genInit, processCmd,
    dc_face1_heading, dc_fd1_move, offsetPoint, smul_mk, add_mk, V3.ext_iff]

lemma dc_flat_fd1 :
    generateFlatPath dcSquareFaces Quat.identity [TCmd.fd 1 1] =
      [[⟨0, 1 / 50, 0⟩, ⟨0, 1 / 50, -1⟩]] := by
  norm_num [generateFlatPath, dc_findP1, dc_face1_heading, processFlatCmd,
    List.foldl, V3.applyQuaternion, Quat.identity, V3.normalize, V3.length,
    V3.lengthSq, Real.sqrt_one, V3.cross, smul_mk, add_mk, V3.ext_iff]

lemma dc_fd_free_move (d : ℝ) (h1 : (0.0001 : ℝ) < d) (h2 : d ≤ 1 / 2) :
    moveTurtle dcSquareFaces ⟨1, ⟨0, -(1 / 2), 0⟩, ⟨0, 0, -1⟩⟩ d
      [⟨0, -(103 / 200), 0⟩] =
      ⟨⟨1, ⟨0, -(1 / 2), -d⟩, ⟨0, 0, -1⟩⟩,
       [⟨0, -(103 / 200), 0⟩, ⟨0, -(103 / 200), -d⟩], none⟩ := by
  have h0 : (0 : ℝ) < d := by norm_num at h1 ⊢; linarith
  have h1' : (1 / 10000 : ℝ) < d := by norm_num at h1; linarith
  rw [moveTurtle, show jsSign d = (1 : ℝ) by
      rw [jsSign, if_neg (not_lt.mpr h0.le), if_pos h0],
    abs_of_pos h0, show (100 : ℕ) = 98 + 1 + 1 from rfl]
  norm_num [moveLoop, moveLoopEdge, dcSquareFaces, findP, dc_vhit1, dc_ehit1,
    offsetPoint, smul_mk, add_mk, sub_mk, V3.ext_iff, h1, h1',
    not_lt.mpr h2]

lemma dc_fd_free_path (d : ℝ) (h1 : (0.0001 : ℝ) < d) (h2 : d ≤ 1 / 2) :
    generatePath dcSquareFaces [TCmd.fd d 1] =
      ⟨[[⟨0, -(103 / 200), 0⟩, ⟨0, -(103 / 200), -d⟩]], none⟩ := by
  norm_num [generatePath, dc_findP1, genLoop, genInit, processCmd,
    dc_face1_heading, dc_fd_free_move d h1 h2, offsetPoint, smul_mk, add_mk,
    V3.ext_iff]

lemma dc_flat_fd (d : ℝ) :
    generateFlatPath dcSquareFaces Quat.identity [TCmd.fd d 1] =
      [[⟨0, 1 / 50, 0⟩, ⟨0, 1 / 50, -d⟩]] := by
  norm_num [generateFlatPath, dc_findP1, dc_face1_heading, processFlatCmd,
    List.foldl, V3.applyQuaternion, Quat.identity, V3.normalize, V3.length,
    V3.lengthSq, Real.sqrt_one, V3.cross, smul_mk, add_mk, V3.ext_iff]

lemma dist_straight (a d : ℝ) (hd : 0 ≤ d) :
    (V3.mk 0 a 0).distanceTo ⟨0, a, -d⟩ = d := by
  rw [V3.distanceTo, V3.length]
  norm_num [V3.lengthSq, sub_mk]
  rw [Real.sqrt_mul_self hd]

/-- C4 counterexample: on the doubly covered square, `fd 1` crosses an
edge, so the surface walk is split at the crossing (with a 0.001 nudge and
0.015 normal offsets) into three steps while the flat walk takes a single
step of length 1: the per-step distances of the two generators differ. -/
theorem C4_step_lengths_not_equal :
    pathStepDists (generatePath dcSquareFaces [TCmd.fd 1 1]).segments ≠
      pathStepDists
        (generateFlatPath dcSquareFaces Quat.identity [TCmd.fd 1 1]) := by
  rw [dc_fd1_path, dc_flat_fd1]
  simp [pathStepDists, stepDists]

/--
C4, corrected (amended claim).  The two generators agree exactly on turn
magnitudes: `lt`/`rt` rotate the heading by the same `deg·π/180` angle
(about the current face normal on the surface, about the world down normal
on the plane).  Step lengths agree only for moves that stay within the
current face: on the doubly covered square, a forward move of length
`d ≤ 1/2` from the start produces the single step `[d]` in both
generators, whereas an edge-crossing move is split (see the
counterexample). -/
theorem C4_amended_agreement :
    (∀ d : ℝ, (0.0001 : ℝ) < d → d ≤ 1 / 2 →
      pathStepDists (generatePath dcSquareFaces [TCmd.fd d 1]).segments =
        [[d]] ∧
      pathStepDists
        (generateFlatPath dcSquareFaces Quat.identity [TCmd.fd d 1]) =
        [[d]]) ∧
    (∀ (faces : List FaceData) (sf : FaceData) (ih : V3) (g : GenState)
      (deg : ℝ) (ln : ℕ) (f : FaceData),
      findP (fun face => face.index = g.st.faceIndex) faces = some f →
      (processCmd faces sf ih g (TCmd.lt deg ln)).st.heading =
        g.st.heading.applyAxisAngle f.normal (deg * (Real.pi / 180)) ∧
      (processCmd faces sf ih g (TCmd.rt deg ln)).st.heading =
        g.st.heading.applyAxisAngle f.normal (-(deg * (Real.pi / 180)))) ∧
    (∀ (wh wn sp : V3) (s : FlatState) (deg : ℝ) (ln : ℕ),
      (processFlatCmd wh wn sp s (TCmd.lt deg ln)).heading =
        s.heading.applyAxisAngle wn (deg * (Real.pi / 180)) ∧
      (processFlatCmd wh wn sp s (TCmd.rt deg ln)).heading =
        s.heading.applyAxisAngle wn (-(deg * (Real.pi / 180)))) := by
  refine ⟨?_, ?_, ?_⟩
  · intro d h1 h2
    have hd : (0 : ℝ) ≤ d := by norm_num at h1; linarith
    rw [dc_fd_free_path d h1 h2, dc_flat_fd d]
    norm_num [pathStepDists, stepDists, dist_straight _ _ hd]
  · intro faces sf ih g deg ln f hf
    constructor
    · simp only [processCmd, hf]
    · simp only [processCmd, hf]
  · intro wh wn sp s deg ln
    constructor
    · simp only [processFlatCmd]
      norm_num [mul_comm, mul_div_assoc]
    · simp only [processFlatCmd]
      rw [show -deg * Real.pi / 180 = -(deg * (Real.pi / 180)) by ring]

/-- Witness for C4: at `d = 1/4` both generators produce the single step
distance list `[[1/4]]`. -/
theorem C4_amended_agreement_witness :
    pathStepDists
        (generatePath dcSquareFaces [TCmd.fd (1 / 4) 1]).segments =
      [[(1 / 4 : ℝ)]] ∧
    pathStepDists
        (generateFlatPath dcSquareFaces Quat.identity [TCmd.fd (1 / 4) 1]) =
      [[(1 / 4 : ℝ)]] :=
  C4_amended_agreement.1 (1 / 4) (by norm_num) (by norm_num)

/--
C5, code bug.  The walk of `fd 1` on the doubly covered square crosses
from face 1 to face 2 (the final `faceIndex` is 2), yet the returned
`PathResult` — transcribed field-for-field from `types.ts` — consists of
the path segments and the optional error only: there is no `edgeRolls`
field recording the face-transition events, although `App.tsx`'s
`handleRollAnimation` reads `result.edgeRolls.map(...)`. -/
theorem C5_no_edge_roll_events :
    (moveTurtle dcSquareFaces ⟨1, ⟨0, -(1 / 2), 0⟩, ⟨0, 0, -1⟩⟩ 1
        [⟨0, -(103 / 200), 0⟩]).st.faceIndex = 2 ∧
    generatePath dcSquareFaces [TCmd.fd 1 1] =
      PathResult.mk
        [[⟨0, -(103 / 200), 0⟩, ⟨0, -(103 / 200), -(1 / 2)⟩,
          ⟨0, -(97 / 200), -(499 / 1000)⟩, ⟨0, -(97 / 200), 1 / 1000⟩]]
        none :=
  ⟨by rw [dc_fd1_move], dc_fd1_path⟩

/-- Any error set by the edge alternative comes from the recursive call. -/
lemma moveLoopEdge_err_msg (faces : List FaceData) (sgn : ℝ) (fuel : ℕ)
    (hP : ∀ (st : TurtleState) (remaining : ℝ) (path : List V3) (msg : String),
      (moveLoop faces sgn fuel st remaining path).err = some msg →
      msg = "Path reached a vertex")
    (st : TurtleState) (remaining : ℝ) (path : List V3) (f : FaceData)
    (mh : V3) (eh : Option EHit) (msg : String)
    (h : (moveLoopEdge faces sgn fuel st remaining path f mh eh).err =
      some msg) :
    msg = "Path reached a vertex" := by
  rcases eh with _ | e
  · simp only [moveLoopEdge] at h
    exact hP _ _ _ _ h
  · simp only [moveLoopEdge] at h
    split_ifs at h with hc
    · rcases hadj : getAdjacentFace faces f (f.vertices.getD e.edgeIndex 0)
        (f.vertices.getD ((e.edgeIndex + 1) % f.vertices.length) 0) with _ | nb
      · rw [hadj] at h
        simp at h
      · rw [hadj] at h
        exact hP _ _ _ _ h
    · exact hP _ _ _ _ h

/-- The only error message `moveTurtle`'s loop ever produces. -/
lemma moveLoop_err_msg (faces : List FaceData) (sgn : ℝ) :
    ∀ (fuel : ℕ) (st : TurtleState) (remaining : ℝ) (path : List V3)
      (msg : String),
      (moveLoop faces sgn fuel st remaining path).err = some msg →
      msg = "Path reached a vertex" := by
  intro fuel
  induction fuel with
  | zero =>
    intro st remaining path msg h
    simp [moveLoop] at h
  | succ n IHn =>
    intro st remaining path msg h
    simp only [moveLoop] at h
    split_ifs at h with hrem
    · rcases hfp : findP (fun fc => fc.index = st.faceIndex) faces with _ | f
      · rw [hfp] at h
        simp at h
      · rw [hfp] at h
        dsimp only at h
        rcases hvh : findVertexHit f st.pos (sgn • st.heading) with _ | vh
        · rw [hvh] at h
          dsimp only at h
          exact moveLoopEdge_err_msg faces sgn n IHn _ _ _ _ _ _ _ h
        · rw [hvh] at h
          dsimp only at h
          split_ifs at h with hcond
          · simp only [Option.some.injEq] at h
            exact h.symm
          · exact moveLoopEdge_err_msg faces sgn n IHn _ _ _ _ _ _ _ h

/--
C1, confirmed.  In `utils/turtle.ts`: the only error the movement loop ever
produces is "Path reached a vertex"; when a vertex hit is found no later
than the best edge hit and strictly before the remaining distance, the loop
moves to the vertex-approach position, appends that final (normal-offset)
point to the current path, and returns the error; `generatePath`'s command
loop then stops processing all further commands, attributing the error to
the 1-based line number of the `fd`/`bk` command that caused it, while
returning all previously accumulated segments alongside the error. -/
theorem C1_vertex_halt :
    (∀ (faces : List FaceData) (sgn : ℝ) (fuel : ℕ) (st : TurtleState)
      (remaining : ℝ) (path : List V3) (msg : String),
      (moveLoop faces sgn fuel st remaining path).err = some msg →
      msg = "Path reached a vertex") ∧
    (∀ (faces : List FaceData) (sgn : ℝ) (fuel : ℕ) (st : TurtleState)
      (remaining : ℝ) (path : List V3) (f : FaceData) (vh : VHit),
      (0.0001 : ℝ) < remaining →
      findP (fun fc => fc.index = st.faceIndex) faces = some f →
      findVertexHit f st.pos (sgn • st.heading) = some vh →
      (match findEdgeHit f st.pos (sgn • st.heading) with
        | none => True
        | some eh => vh.t ≤ eh.t) →
      vh.t < remaining →
      moveLoop faces sgn (fuel + 1) st remaining path =
        ⟨{ st with pos := st.pos + vh.t • (sgn • st.heading) },
         path ++ [offsetPoint (st.pos + vh.t • (sgn • st.heading)) f],
         some "Path reached a vertex"⟩) ∧
    (∀ (faces : List FaceData) (sf : FaceData) (ihd : V3) (cs : List TCmd)
      (g : GenState) (d : ℝ) (ln : ℕ) (msg : String),
      (moveTurtle faces g.st d g.currentPath).err = some msg →
      genLoop faces sf ihd (TCmd.fd d ln :: cs) g =
        { st := (moveTurtle faces g.st d g.currentPath).st
          segments := g.segments
          currentPath := (moveTurtle faces g.st d g.currentPath).path
          error := some ⟨msg, ln⟩ }) ∧
    (∀ (faces : List FaceData) (sf : FaceData) (ihd : V3) (cs : List TCmd)
      (g : GenState) (d : ℝ) (ln : ℕ) (msg : String),
      (moveTurtle faces g.st (-d) g.currentPath).err = some msg →
      genLoop faces sf ihd (TCmd.bk d ln :: cs) g =
        { st := (moveTurtle faces g.st (-d) g.currentPath).st
          segments := g.segments
          currentPath := (moveTurtle faces g.st (-d) g.currentPath).path
          error := some ⟨msg, ln⟩ }) ∧
    (∀ (faces : List FaceData) (sf : FaceData) (cmds : List TCmd),
      findP (fun f => f.index = 1) faces = some sf →
      generatePath faces cmds =
        ⟨(genLoop faces sf (initialHeadingOf sf) cmds (genInit sf)).segments ++
          (if 1 < (genLoop faces sf (initialHeadingOf sf) cmds
              (genInit sf)).currentPath.length then
            [(genLoop faces sf (initialHeadingOf sf) cmds
              (genInit sf)).currentPath]
          else []),
         (genLoop faces sf (initialHeadingOf sf) cmds (genInit sf)).error⟩) := by
  refine ⟨fun faces sgn => moveLoop_err_msg faces sgn, ?_, ?_, ?_, ?_⟩
  · intro faces sgn fuel st remaining path f vh hrem hfp hvh hedge hlt
    simp only [moveLoop]
    rw [if_pos hrem, hfp]
    dsimp only
    rw [hvh]
    dsimp only
    rw [if_pos ⟨hedge, hlt⟩]
  · intro faces sf ihd cs g d ln msg herr
    simp only [genLoop, processCmd, herr, Option.map_some', Option.isSome_some,
      if_true]
  · intro faces sf ihd cs g d ln msg herr
    simp only [genLoop, processCmd, herr, Option.map_some', Option.isSome_some,
      if_true]
  · intro faces sf cmds hfp
    simp only [generatePath, hfp]

lemma sqrt_576 : Real.sqrt 576 = 24 := by
  rw [show (576 : ℝ) = 24 ^ 2 by norm_num,
    Real.sqrt_sq (by norm_num : (0 : ℝ) ≤ 24)]

lemma sqrt_625 : Real.sqrt 625 = 25 := by
  rw [show (625 : ℝ) = 25 ^ 2 by norm_num,
    Real.sqrt_sq (by norm_num : (0 : ℝ) ≤ 25)]

lemma dc_vhit_w :
    findVertexHit ⟨1, ⟨0, -(1 / 2), 0⟩, ⟨0, -1, 0⟩, dcSquareVertices⟩
      ⟨23 / 50, -(1 / 2), 0⟩ ((1 : ℝ) • ⟨0, 0, -1⟩) =
      some ⟨1 / 2, ⟨1 / 2, -(1 / 2), -(1 / 2)⟩, 1⟩ := by
  norm_num [findVertexHit, findVertexHitAux, dcSquareVertices, List.enum,
    List.enumFrom, V3.dot, V3.distanceTo, V3.length, V3.lengthSq, smul_mk,
    sqrt_576, sqrt_625, VHit.mk.injEq, V3.ext_iff]

lemma dc_ehit_w :
    findEdgeHit ⟨1, ⟨0, -(1 / 2), 0⟩, ⟨0, -1, 0⟩, dcSquareVertices⟩
      ⟨23 / 50, -(1 / 2), 0⟩ ((1 : ℝ) • ⟨0, 0, -1⟩) = some ⟨1 / 2, 0⟩ := by
  norm_num [findEdgeHit, findEdgeHitAux, dcSquareVertices, range_four,
    List.getD, V3.dot, V3.cross, V3.normalize, V3.length, V3.lengthSq, smul_mk,
    sqrt_quarter, sqrt_four, Real.sqrt_one]

/-- Witness for C1: on the doubly covered square, a walk starting at
`(0.46, -0.5, 0)` toward `-z` passes within 0.04 of the corner
`(0.5, -0.5, -0.5)` and halts with the vertex error. -/
theorem C1_vertex_halt_witness :
    (moveLoop dcSquareFaces 1 100 ⟨1, ⟨23 / 50, -(1 / 2), 0⟩, ⟨0, 0, -1⟩⟩ 1
        []).err = some "Path reached a vertex" := by
  rw [show (100 : ℕ) = 99 + 1 from rfl]
  rw [C1_vertex_halt.2.1 dcSquareFaces 1 99 ⟨1, ⟨23 / 50, -(1 / 2), 0⟩,
      ⟨0, 0, -1⟩⟩ 1 [] ⟨1, ⟨0, -(1 / 2), 0⟩, ⟨0, -1, 0⟩, dcSquareVertices⟩
      ⟨1 / 2, ⟨1 / 2, -(1 / 2), -(1 / 2)⟩, 1⟩ (by norm_num)
      (by norm_num [findP, dcSquareFaces]) dc_vhit_w
      (by rw [dc_ehit_w]) (by norm_num)]

/-- Rodrigues form of the three.js axis-angle rotation (unit axis). -/
lemma rodrigues (a v : V3) (θ : ℝ) (ha : a.lengthSq = 1) :
    v.applyQuaternion (Quat.setFromAxisAngle a θ) =
      Real.cos θ • v + Real.sin θ • (a.cross v) +
        ((1 - Real.cos θ) * (a.dot v)) • a := by
  have hs2 : Real.sin θ = 2 * Real.sin (θ / 2) * Real.cos (θ / 2) := by
    have h := Real.sin_two_mul (θ / 2)
    rw [show 2 * (θ / 2) = θ by ring] at h
    exact h
  have hc2 : Real.cos θ = 2 * Real.cos (θ / 2) ^ 2 - 1 := by
    have h := Real.cos_two_mul (θ / 2)
    rw [show 2 * (θ / 2) = θ by ring] at h
    exact h
  have hsc : Real.sin (θ / 2) ^ 2 + Real.cos (θ / 2) ^ 2 = 1 :=
    Real.sin_sq_add_cos_sq _
  have ha' : a.x * a.x + a.y * a.y + a.z * a.z = 1 := ha
  apply V3.ext
  · simp only [V3.applyQuaternion, Quat.setFromAxisAngle, V3.cross, V3.dot,
      V3.add_x, V3.add_y, V3.add_z, V3.smul_x, V3.smul_y, V3.smul_z, V3.mk_x,
      V3.mk_y, V3.mk_z, Quat.mkq_x, Quat.mkq_y, Quat.mkq_z, Quat.mkq_w, hs2, hc2]
    linear_combination
      (-2 * v.x + 2 * a.x * (a.x * v.x + a.y * v.y + a.z * v.z)) * hsc +
      (-2 * Real.sin (θ / 2) ^ 2 * v.x) * ha'
  · simp only [V3.applyQuaternion, Quat.setFromAxisAngle, V3.cross, V3.dot,
      V3.add_x, V3.add_y, V3.add_z, V3.smul_x, V3.smul_y, V3.smul_z, V3.mk_x,
      V3.mk_y, V3.mk_z, Quat.mkq_x, Quat.mkq_y, Quat.mkq_z, Quat.mkq_w, hs2, hc2]
    linear_combination
      (-2 * v.y + 2 * a.y * (a.x * v.x + a.y * v.y + a.z * v.z)) * hsc +
      (-2 * Real.sin (θ / 2) ^ 2 * v.y) * ha'
  · simp only [V3.applyQuaternion, Quat.setFromAxisAngle, V3.cross, V3.dot,
      V3.add_x, V3.add_y, V3.add_z, V3.smul_x, V3.smul_y, V3.smul_z, V3.mk_x,
      V3.mk_y, V3.mk_z, Quat.mkq_x, Quat.mkq_y, Quat.mkq_z, Quat.mkq_w, hs2, hc2]
    linear_combination
      (-2 * v.z + 2 * a.z * (a.x * v.x + a.y * v.y + a.z * v.z)) * hsc +
      (-2 * Real.sin (θ / 2) ^ 2 * v.z) * ha'

/-- Rotation about a unit axis preserves dot products. -/
lemma rot_dot (a u v : V3) (θ : ℝ) (ha : a.lengthSq = 1) :
    (u.applyQuaternion (Quat.setFromAxisAngle a θ)).dot
      (v.applyQuaternion (Quat.setFromAxisAngle a θ)) = u.dot v := by
  have hsc : Real.sin θ ^ 2 + Real.cos θ ^ 2 = 1 := Real.sin_sq_add_cos_sq _
  have ha' : a.x * a.x + a.y * a.y + a.z * a.z = 1 := ha
  rw [rodrigues a u θ ha, rodrigues a v θ ha]
  simp only [V3.dot, V3.cross, V3.add_x, V3.add_y, V3.add_z, V3.smul_x,
    V3.smul_y, V3.smul_z, V3.mk_x, V3.mk_y, V3.mk_z]
  linear_combination
    ((u.x * v.x + u.y * v.y + u.z * v.z) -
      (a.x * u.x + a.y * u.y + a.z * u.z) *
        (a.x * v.x + a.y * v.y + a.z * v.z)) * hsc +
    ((u.x * v.x + u.y * v.y + u.z * v.z) * Real.sin θ ^ 2 +
      (a.x * u.x + a.y * u.y + a.z * u.z) *
        (a.x * v.x + a.y * v.y + a.z * v.z) * (1 - Real.cos θ) ^ 2) * ha'

/-- Lagrange identity for the cross product. -/
lemma cross_lengthSq (u v : V3) :
    (V3.cross u v).lengthSq = u.lengthSq * v.lengthSq - (u.dot v) ^ 2 := by
  simp only [V3.lengthSq, V3.cross, V3.dot, V3.mk_x, V3.mk_y, V3.mk_z]
  ring

/-- Gram-determinant identity for the scalar triple product. -/
lemma triple_gram (u v w : V3) :
    ((V3.cross u v).dot w) ^ 2 =
      u.lengthSq * v.lengthSq * w.lengthSq +
        2 * (u.dot v) * (v.dot w) * (u.dot w) -
        u.lengthSq * (v.dot w) ^ 2 - v.lengthSq * (u.dot w) ^ 2 -
        w.lengthSq * (u.dot v) ^ 2 := by
  simp only [V3.lengthSq, V3.cross, V3.dot, V3.mk_x, V3.mk_y, V3.mk_z]
  ring

lemma lengthSq_comb (p q r : V3) (s u : ℝ) :
    (s • p + u • q - r).lengthSq =
      s ^ 2 * p.lengthSq + u ^ 2 * q.lengthSq + r.lengthSq +
        2 * s * u * (p.dot q) - 2 * s * (p.dot r) - 2 * u * (q.dot r) := by
  simp only [V3.lengthSq, V3.dot, V3.add_x, V3.add_y, V3.add_z, V3.sub_x,
    V3.sub_y, V3.sub_z, V3.smul_x, V3.smul_y, V3.smul_z]
  ring

lemma V3.sub_eq_zero_iff (a b : V3) : a - b = 0 ↔ a = b := by
  constructor
  · intro h
    have hx := congrArg V3.x h
    have hy := congrArg V3.y h
    have hz := congrArg V3.z h
    simp only [V3.sub_x, V3.sub_y, V3.sub_z, V3.zero_x, V3.zero_y,
      V3.zero_z] at hx hy hz
    apply V3.ext <;> linarith
  · intro h
    rw [h]
    apply V3.ext <;> simp

lemma V3.zero_smul_eq (v : V3) : (0 : ℝ) • v = 0 := by
  apply V3.ext <;> simp

lemma V3.add_zero_eq (v : V3) : v + 0 = v := by
  apply V3.ext <;> simp

/-- The signed dihedral rotation of `crossEdge` maps the old face normal to
the new one, for a unit edge axis orthogonal to both unit normals. -/
lemma rot_maps_normal (a f t : V3) (ha : a.lengthSq = 1) (hf : f.lengthSq = 1)
    (ht : t.lengthSq = 1) (haf : a.dot f = 0) (hat : a.dot t = 0) :
    f.applyQuaternion (Quat.setFromAxisAngle a
      (f.angleTo t * (if 0 < (V3.cross f t).dot a then (1 : ℝ) else -1))) =
      t := by
  have hα2 : (f.dot t) ^ 2 ≤ 1 := by
    have h := V3.lengthSq_nonneg (V3.cross f t)
    rw [cross_lengthSq, hf, ht] at h
    linarith
  have hα_le : f.dot t ≤ 1 := by nlinarith [sq_nonneg (f.dot t - 1)]
  have hα_ge : -1 ≤ f.dot t := by nlinarith [sq_nonneg (f.dot t + 1)]
  have hμsq : ((V3.cross f t).dot a) ^ 2 = 1 - (f.dot t) ^ 2 := by
    have h := triple_gram f t a
    have hta : t.dot a = 0 := by
      simp only [V3.dot] at hat ⊢
      linarith [hat]
    have hfa : f.dot a = 0 := by
      simp only [V3.dot] at haf ⊢
      linarith [haf]
    rw [hf, ht, ha, hta, hfa] at h
    rw [h]
    ring
  have hsqrtμ : Real.sqrt (1 - (f.dot t) ^ 2) = |(V3.cross f t).dot a| := by
    rw [← hμsq, Real.sqrt_sq_eq_abs]
  have hθ : f.angleTo t = Real.arccos (f.dot t) := by
    rw [V3.angleTo, hf, ht]
    norm_num [Real.sqrt_one, min_eq_right hα_le, max_eq_right hα_ge]
  have hkey : (f.dot t) • f + ((V3.cross f t).dot a) • V3.cross a f = t := by
    rw [← V3.sub_eq_zero_iff, ← V3.lengthSq_eq_zero_iff, lengthSq_comb]
    have e1 : (V3.cross a f).lengthSq = 1 := by
      rw [cross_lengthSq, ha, hf, haf]
      ring
    have e2 : f.dot (V3.cross a f) = 0 := by
      simp only [V3.dot, V3.cross, V3.mk_x, V3.mk_y, V3.mk_z]
      ring
    have e3 : (V3.cross a f).dot t = (V3.cross f t).dot a := by
      simp only [V3.dot, V3.cross, V3.mk_x, V3.mk_y, V3.mk_z]
      ring
    rw [hf, e1, e2, e3, ht]
    nlinarith [hμsq]
  have happly : ∀ θc : ℝ, Real.cos θc = f.dot t →
      Real.sin θc = (V3.cross f t).dot a →
      f.applyQuaternion (Quat.setFromAxisAngle a θc) = t := by
    intro θc h1 h2
    rw [rodrigues a f θc ha, h1, h2, haf, mul_zero, V3.zero_smul_eq,
      V3.add_zero_eq]
    exact hkey
  by_cases hsgn : 0 < (V3.cross f t).dot a
  · rw [if_pos hsgn, mul_one, hθ]
    refine happly _ (Real.cos_arccos hα_ge hα_le) ?_
    rw [Real.sin_arccos, hsqrtμ, abs_of_pos hsgn]
  · rw [if_neg hsgn, mul_neg_one, hθ]
    refine happly _ ?_ ?_
    · rw [Real.cos_neg, Real.cos_arccos hα_ge hα_le]
    · rw [Real.sin_neg, Real.sin_arccos, hsqrtμ,
        abs_of_nonpos (not_lt.mp hsgn), neg_neg]

lemma smul_lengthSq (s : ℝ) (v : V3) : (s • v).lengthSq = s ^ 2 * v.lengthSq := by
  simp only [V3.lengthSq, V3.smul_x, V3.smul_y, V3.smul_z]
  ring

lemma normalize_lengthSq (v : V3) (hv : v.lengthSq ≠ 0) :
    v.normalize.lengthSq = 1 := by
  have hL0 : 0 < v.lengthSq := lt_of_le_of_ne (V3.lengthSq_nonneg v) (Ne.symm hv)
  have hl : v.length ≠ 0 := by
    rw [V3.length]
    exact ne_of_gt (Real.sqrt_pos.mpr hL0)
  rw [V3.normalize, if_neg hl, smul_lengthSq, V3.length, div_pow, one_pow,
    Real.sq_sqrt hL0.le]
  field_simp

lemma normalize_dot_zero (v w : V3) (h : v.dot w = 0) :
    v.normalize.dot w = 0 := by
  rw [V3.normalize, V3.dot_smul_left, h, mul_zero]

lemma findP_mem {α : Type _} (p : α → Prop) :
    ∀ (l : List α) (x : α), findP p l = some x → x ∈ l := by
  intro l
  induction l with
  | nil => intro x h; simp [findP] at h
  | cons a t ih =>
    intro x h
    simp only [findP] at h
    split_ifs at h with hp
    · exact (Option.some.inj h) ▸ List.mem_cons_self a t
    · exact List.mem_cons_of_mem _ (ih x h)

lemma findP_prop {α : Type _} (p : α → Prop) :
    ∀ (l : List α) (x : α), findP p l = some x → p x := by
  intro l
  induction l with
  | nil => intro x h; simp [findP] at h
  | cons a t ih =>
    intro x h
    simp only [findP] at h
    split_ifs at h with hp
    · exact (Option.some.inj h) ▸ hp
    · exact ih x h

lemma list_getD_mem {l : List V3} {i : ℕ} (h : i < l.length) :
    l.getD i 0 ∈ l := by
  rw [List.getD_eq_getElem l 0 h]
  exact List.getElem_mem h

lemma findEdgeHitAux_bound (face : FaceData) (pos heading : V3) :
    ∀ (l : List ℕ) (best : Option EHit) (e : EHit),
      findEdgeHitAux face pos heading l best = some e →
      e.edgeIndex ∈ l ∨ best = some e := by
  intro l
  induction l with
  | nil =>
    intro best e h
    simp only [findEdgeHitAux] at h
    right
    exact h
  | cons i rest ih =>
    intro best e h
    simp only [findEdgeHitAux] at h
    rcases ih _ e h with hmem | hbest
    · exact Or.inl (List.mem_cons_of_mem _ hmem)
    · split_ifs at hbest with h1 h2
      · obtain rfl := Option.some.inj hbest
        exact Or.inl (List.mem_cons_self _ _)
      · exact Or.inr hbest
      · exact Or.inr hbest

lemma findEdgeHit_lt (face : FaceData) (pos heading : V3) (e : EHit)
    (h : findEdgeHit face pos heading = some e) :
    e.edgeIndex < face.vertices.length := by
  rcases findEdgeHitAux_bound face pos heading _ none e h with hmem | hbest
  · exact List.mem_range.mp hmem
  · simp at hbest

lemma dot_sub_split (p q c n : V3) :
    (p - q).dot n = (p - c).dot n - (q - c).dot n := by
  simp only [V3.dot, V3.sub_x, V3.sub_y, V3.sub_z]
  ring

/-- The face-to-face transition of `crossEdge` keeps the heading's squared
length and makes it tangent to the new face. -/
lemma crossEdge_inv (st : TurtleState) (f nb : FaceData) (v1 v2 : V3)
    (hfn : f.normal.lengthSq = 1) (hnn : nb.normal.lengthSq = 1)
    (hne : v1 ≠ v2)
    (hpf : (v2 - v1).dot f.normal = 0) (hpn : (v2 - v1).dot nb.normal = 0)
    (hh : st.heading.dot f.normal = 0) :
    (crossEdge st f nb v1 v2).faceIndex = nb.index ∧
    (crossEdge st f nb v1 v2).heading.lengthSq = st.heading.lengthSq ∧
    (crossEdge st f nb v1 v2).heading.dot nb.normal = 0 := by
  have hd0 : (v2 - v1).lengthSq ≠ 0 := by
    intro h0
    exact hne ((V3.sub_eq_zero_iff v2 v1).mp
      ((V3.lengthSq_eq_zero_iff _).mp h0)).symm
  have ha : (v2 - v1).normalize.lengthSq = 1 := normalize_lengthSq _ hd0
  have haf : (v2 - v1).normalize.dot f.normal = 0 := normalize_dot_zero _ _ hpf
  have hat : (v2 - v1).normalize.dot nb.normal = 0 :=
    normalize_dot_zero _ _ hpn
  set a' := (v2 - v1).normalize with ha'def
  set θ' := f.normal.angleTo nb.normal *
    (if 0 < (V3.cross f.normal nb.normal).dot a' then (1 : ℝ) else -1)
    with hθ'def
  have hmap := rot_maps_normal a' f.normal nb.normal ha hfn hnn haf hat
  rw [← hθ'def] at hmap
  refine ⟨rfl, ?_, ?_⟩
  · exact rot_dot a' st.heading st.heading θ' ha
  · have h2 := rot_dot a' st.heading f.normal θ' ha
    rw [hmap] at h2
    exact h2.trans hh

/-- A rotation about a unit axis fixes the axis. -/
lemma rot_fixes_axis (a : V3) (θ : ℝ) (ha : a.lengthSq = 1) :
    a.applyQuaternion (Quat.setFromAxisAngle a θ) = a := by
  rw [rodrigues a a θ ha, V3.dot_self_eq_lengthSq, ha]
  apply V3.ext <;>
    simp only [V3.add_x, V3.add_y, V3.add_z, V3.smul_x, V3.smul_y, V3.smul_z,
      V3.cross, V3.mk_x, V3.mk_y, V3.mk_z] <;>
    ring

/-- Rotating a tangent vector about the face normal keeps it unit and
tangent. -/
lemma turn_inv (n v : V3) (θ : ℝ) (hn : n.lengthSq = 1) (hv : v.dot n = 0) :
    (v.applyAxisAngle n θ).lengthSq = v.lengthSq ∧
    (v.applyAxisAngle n θ).dot n = 0 := by
  constructor
  · exact rot_dot n v v θ hn
  · have h2 := rot_dot n v n θ hn
    rw [rot_fixes_axis n θ hn] at h2
    exact h2.trans hv

/-- One invariance step for the edge-crossing / free-move alternative. -/
lemma moveLoopEdge_inv (faces : List FaceData) (sgn : ℝ) (fuel : ℕ)
    (hunit : ∀ f ∈ faces, f.normal.lengthSq = 1)
    (hplanar : ∀ f ∈ faces, ∀ v ∈ f.vertices, (v - f.center).dot f.normal = 0)
    (hweld : ∀ f ∈ faces, ∀ g ∈ faces, ∀ v ∈ f.vertices, ∀ w ∈ g.vertices,
      v.distanceTo w < 0.01 → v = w)
    (hconsec : ∀ f ∈ faces, ∀ i, i < f.vertices.length →
      f.vertices.getD i 0 ≠ f.vertices.getD ((i + 1) % f.vertices.length) 0)
    (hfind : ∀ f ∈ faces, findP (fun fc => fc.index = f.index) faces = some f)
    (hP : ∀ (st : TurtleState) (remaining : ℝ) (path : List V3),
      st.heading.lengthSq = 1 →
      (∀ f', findP (fun fc => fc.index = st.faceIndex) faces = some f' →
        st.heading.dot f'.normal = 0) →
      (moveLoop faces sgn fuel st remaining path).st.heading.lengthSq = 1 ∧
        ∀ f', findP (fun fc =>
            fc.index = (moveLoop faces sgn fuel st remaining path).st.faceIndex)
            faces = some f' →
          (moveLoop faces sgn fuel st remaining path).st.heading.dot
            f'.normal = 0)
    (st : TurtleState) (remaining : ℝ) (path : List V3) (f : FaceData)
    (mh : V3) (eh : Option EHit)
    (hfmem : f ∈ faces)
    (hehb : ∀ e, eh = some e → e.edgeIndex < f.vertices.length)
    (hfp : findP (fun fc => fc.index = st.faceIndex) faces = some f)
    (hinv1 : st.heading.lengthSq = 1)
    (hinv2 : ∀ f', findP (fun fc => fc.index = st.faceIndex) faces = some f' →
      st.heading.dot f'.normal = 0) :
    (moveLoopEdge faces sgn fuel st remaining path f mh eh).st.heading.lengthSq
      = 1 ∧
    ∀ f', findP (fun fc =>
        fc.index =
          (moveLoopEdge faces sgn fuel st remaining path f mh eh).st.faceIndex)
        faces = some f' →
      (moveLoopEdge faces sgn fuel st remaining path f mh eh).st.heading.dot
        f'.normal = 0 := by
  rcases eh with _ | e
  · simp only [moveLoopEdge]
    exact hP _ _ _ hinv1 hinv2
  · simp only [moveLoopEdge]
    split_ifs with hc
    · rcases hadj : getAdjacentFace faces f (f.vertices.getD e.edgeIndex 0)
        (f.vertices.getD ((e.edgeIndex + 1) % f.vertices.length) 0)
        with _ | nb
      · exact ⟨hinv1, hinv2⟩
      · have hlt : e.edgeIndex < f.vertices.length := hehb e rfl
        have hlen0 : 0 < f.vertices.length := Nat.lt_of_le_of_lt (Nat.zero_le _) hlt
        have hlt2 : (e.edgeIndex + 1) % f.vertices.length <
            f.vertices.length := Nat.mod_lt _ hlen0
        have hv1m : f.vertices.getD e.edgeIndex 0 ∈ f.vertices :=
          list_getD_mem hlt
        have hv2m : f.vertices.getD ((e.edgeIndex + 1) % f.vertices.length) 0 ∈
            f.vertices := list_getD_mem hlt2
        have hnbmem : nb ∈ faces := findP_mem _ faces nb hadj
        have hprop := findP_prop _ faces nb hadj
        obtain ⟨-, ⟨w1, hw1m, hw1d⟩, ⟨w2, hw2m, hw2d⟩⟩ := hprop
        have hw1 : w1 = f.vertices.getD e.edgeIndex 0 :=
          hweld nb hnbmem f hfmem w1 hw1m _ hv1m hw1d
        have hw2 : w2 = f.vertices.getD ((e.edgeIndex + 1) %
            f.vertices.length) 0 := hweld nb hnbmem f hfmem w2 hw2m _ hv2m hw2d
        have hv1nb : f.vertices.getD e.edgeIndex 0 ∈ nb.vertices := hw1 ▸ hw1m
        have hv2nb : f.vertices.getD ((e.edgeIndex + 1) %
            f.vertices.length) 0 ∈ nb.vertices := hw2 ▸ hw2m
        have hpf : (f.vertices.getD ((e.edgeIndex + 1) % f.vertices.length) 0 -
            f.vertices.getD e.edgeIndex 0).dot f.normal = 0 := by
          rw [dot_sub_split _ _ f.center]
          rw [hplanar f hfmem _ hv2m, hplanar f hfmem _ hv1m]
          ring
        have hpn : (f.vertices.getD ((e.edgeIndex + 1) % f.vertices.length) 0 -
            f.vertices.getD e.edgeIndex 0).dot nb.normal = 0 := by
          rw [dot_sub_split _ _ nb.center]
          rw [hplanar nb hnbmem _ hv2nb, hplanar nb hnbmem _ hv1nb]
          ring
        have hcross := crossEdge_inv
          { st with pos := st.pos + e.t • mh } f nb
          (f.vertices.getD e.edgeIndex 0)
          (f.vertices.getD ((e.edgeIndex + 1) % f.vertices.length) 0)
          (hunit f hfmem) (hunit nb hnbmem)
          (hconsec f hfmem e.edgeIndex hlt) hpf hpn (hinv2 f hfp)
        refine hP _ _ _ ?_ ?_
        · rw [hcross.2.1]
          exact hinv1
        · intro f' hf'
          rw [hcross.1] at hf'
          rw [hfind nb hnbmem] at hf'
          obtain rfl := Option.some.inj hf'
          exact hcross.2.2
    · exact hP _ _ _ hinv1 hinv2

/-- The movement loop of `moveTurtle` preserves the unit-tangent heading
invariant. -/
lemma moveLoop_inv (faces : List FaceData) (sgn : ℝ)
    (hunit : ∀ f ∈ faces, f.normal.lengthSq = 1)
    (hplanar : ∀ f ∈ faces, ∀ v ∈ f.vertices, (v - f.center).dot f.normal = 0)
    (hweld : ∀ f ∈ faces, ∀ g ∈ faces, ∀ v ∈ f.vertices, ∀ w ∈ g.vertices,
      v.distanceTo w < 0.01 → v = w)
    (hconsec : ∀ f ∈ faces, ∀ i, i < f.vertices.length →
      f.vertices.getD i 0 ≠ f.vertices.getD ((i + 1) % f.vertices.length) 0)
    (hfind : ∀ f ∈ faces, findP (fun fc => fc.index = f.index) faces =
      some f) :
    ∀ (fuel : ℕ) (st : TurtleState) (remaining : ℝ) (path : List V3),
      st.heading.lengthSq = 1 →
      (∀ f', findP (fun fc => fc.index = st.faceIndex) faces = some f' →
        st.heading.dot f'.normal = 0) →
      (moveLoop faces sgn fuel st remaining path).st.heading.lengthSq = 1 ∧
        ∀ f', findP (fun fc =>
            fc.index = (moveLoop faces sgn fuel st remaining path).st.faceIndex)
            faces = some f' →
          (moveLoop faces sgn fuel st remaining path).st.heading.dot
            f'.normal = 0 := by
  intro fuel
  induction fuel with
  | zero =>
    intro st remaining path h1 h2
    simp only [moveLoop]
    exact ⟨h1, h2⟩
  | succ n IHn =>
    intro st remaining path h1 h2
    simp only [moveLoop]
    split_ifs with hrem
    · rcases hfp : findP (fun fc => fc.index = st.faceIndex) faces with _ | f
      · rw [hfp]
        exact ⟨h1, h2⟩
      · rw [hfp]
        dsimp only
        have hfmem : f ∈ faces := findP_mem _ faces f hfp
        rcases hvh : findVertexHit f st.pos (sgn • st.heading) with _ | vh
        · dsimp only
          exact moveLoopEdge_inv faces sgn n hunit hplanar hweld hconsec hfind
            IHn st remaining path f (sgn • st.heading) _ hfmem
            (fun e he => findEdgeHit_lt f st.pos (sgn • st.heading) e he) hfp
            h1 h2
        · dsimp only
          split_ifs with hcond
          · exact ⟨h1, h2⟩
          · exact moveLoopEdge_inv faces sgn n hunit hplanar hweld hconsec
              hfind IHn st remaining path f (sgn • st.heading) _ hfmem
              (fun e he => findEdgeHit_lt f st.pos (sgn • st.heading) e he) hfp
              h1 h2
    · exact ⟨h1, h2⟩

/-- Every command of `generatePath` preserves the unit-tangent invariant. -/
lemma processCmd_inv (faces : List FaceData) (sf : FaceData) (ihd : V3)
    (hunit : ∀ f ∈ faces, f.normal.lengthSq = 1)
    (hplanar : ∀ f ∈ faces, ∀ v ∈ f.vertices, (v - f.center).dot f.normal = 0)
    (hweld : ∀ f ∈ faces, ∀ g ∈ faces, ∀ v ∈ f.vertices, ∀ w ∈ g.vertices,
      v.distanceTo w < 0.01 → v = w)
    (hconsec : ∀ f ∈ faces, ∀ i, i < f.vertices.length →
      f.vertices.getD i 0 ≠ f.vertices.getD ((i + 1) % f.vertices.length) 0)
    (hfind : ∀ f ∈ faces, findP (fun fc => fc.index = f.index) faces = some f)
    (hsfm : sf ∈ faces)
    (hih1 : ihd.lengthSq = 1) (hih2 : ihd.dot sf.normal = 0)
    (g : GenState) (cmd : TCmd)
    (h1 : g.st.heading.lengthSq = 1)
    (h2 : ∀ f', findP (fun fc => fc.index = g.st.faceIndex) faces = some f' →
      g.st.heading.dot f'.normal = 0) :
    (processCmd faces sf ihd g cmd).st.heading.lengthSq = 1 ∧
    ∀ f', findP (fun fc =>
        fc.index = (processCmd faces sf ihd g cmd).st.faceIndex) faces =
        some f' →
      (processCmd faces sf ihd g cmd).st.heading.dot f'.normal = 0 := by
  cases cmd with
  | start x y ln =>
    refine ⟨hih1, fun f' hf' => ?_⟩
    simp only [processCmd] at hf' ⊢
    rw [hfind sf hsfm] at hf'
    obtain rfl := Option.some.inj hf'
    exact hih2
  | lt deg ln =>
    simp only [processCmd]
    rcases hfp : findP (fun face => face.index = g.st.faceIndex) faces
      with _ | f
    · rw [hfp]
      exact ⟨h1, h2⟩
    · rw [hfp]
      dsimp only
      have hfmem : f ∈ faces := findP_mem _ faces f hfp
      have ht := turn_inv f.normal g.st.heading (deg * (Real.pi / 180))
        (hunit f hfmem) (h2 f hfp)
      refine ⟨by rw [ht.1]; exact h1, fun f' hf' => ?_⟩
      rw [hfp] at hf'
      obtain rfl := Option.some.inj hf'
      exact ht.2
  | rt deg ln =>
    simp only [processCmd]
    rcases hfp : findP (fun face => face.index = g.st.faceIndex) faces
      with _ | f
    · rw [hfp]
      exact ⟨h1, h2⟩
    · rw [hfp]
      dsimp only
      have hfmem : f ∈ faces := findP_mem _ faces f hfp
      have ht := turn_inv f.normal g.st.heading (-(deg * (Real.pi / 180)))
        (hunit f hfmem) (h2 f hfp)
      refine ⟨by rw [ht.1]; exact h1, fun f' hf' => ?_⟩
      rw [hfp] at hf'
      obtain rfl := Option.some.inj hf'
      exact ht.2
  | fd d ln =>
    simp only [processCmd, moveTurtle]
    exact moveLoop_inv faces (jsSign d) hunit hplanar hweld hconsec hfind 100
      g.st |d| g.currentPath h1 h2
  | bk d ln =>
    simp only [processCmd, moveTurtle]
    exact moveLoop_inv faces (jsSign (-d)) hunit hplanar hweld hconsec hfind
      100 g.st |(-d)| g.currentPath h1 h2

/-- The command loop preserves the unit-tangent invariant. -/
lemma genLoop_inv (faces : List FaceData) (sf : FaceData) (ihd : V3)
    (hunit : ∀ f ∈ faces, f.normal.lengthSq = 1)
    (hplanar : ∀ f ∈ faces, ∀ v ∈ f.vertices, (v - f.center).dot f.normal = 0)
    (hweld : ∀ f ∈ faces, ∀ g ∈ faces, ∀ v ∈ f.vertices, ∀ w ∈ g.vertices,
      v.distanceTo w < 0.01 → v = w)
    (hconsec : ∀ f ∈ faces, ∀ i, i < f.vertices.length →
      f.vertices.getD i 0 ≠ f.vertices.getD ((i + 1) % f.vertices.length) 0)
    (hfind : ∀ f ∈ faces, findP (fun fc => fc.index = f.index) faces = some f)
    (hsfm : sf ∈ faces)
    (hih1 : ihd.lengthSq = 1) (hih2 : ihd.dot sf.normal = 0) :
    ∀ (cmds : List TCmd) (g : GenState),
      g.st.heading.lengthSq = 1 →
      (∀ f', findP (fun fc => fc.index = g.st.faceIndex) faces = some f' →
        g.st.heading.dot f'.normal = 0) →
      (genLoop faces sf ihd cmds g).st.heading.lengthSq = 1 ∧
        ∀ f', findP (fun fc =>
            fc.index = (genLoop faces sf ihd cmds g).st.faceIndex) faces =
            some f' →
          (genLoop faces sf ihd cmds g).st.heading.dot f'.normal = 0 := by
  intro cmds
  induction cmds with
  | nil =>
    intro g h1 h2
    simp only [genLoop]
    exact ⟨h1, h2⟩
  | cons c cs ih =>
    intro g h1 h2
    simp only [genLoop]
    have hstep := processCmd_inv faces sf ihd hunit hplanar hweld hconsec
      hfind hsfm hih1 hih2 g c h1 h2
    split_ifs with herr
    · exact hstep
    · exact ih _ hstep.1 hstep.2

lemma mid_dot_split (v0 v1 c n : V3) :
    ((0.5 : ℝ) • (v0 + v1) - c).dot n =
      (1 / 2) * ((v0 - c).dot n) + (1 / 2) * ((v1 - c).dot n) := by
  simp only [V3.dot, V3.add_x, V3.add_y, V3.add_z, V3.sub_x, V3.sub_y,
    V3.sub_z, V3.smul_x, V3.smul_y, V3.smul_z]
  ring

/--
C8, confirmed.  The turtle-state invariant of `generatePath` in
`utils/turtle.ts`: (1) rotating a tangent heading about a unit face normal
(`lt`/`rt`) preserves its squared length and its tangency; (2) the signed
dihedral rotation used by `crossEdge` (axis-angle about the normalized
shared edge, by `angleTo` with the sign of `cross(from, to)·edgeAxis`)
maps the old face's unit normal exactly onto the new face's unit normal;
(3) hence `crossEdge` re-establishes tangency to the new face while
keeping the heading's length; and (4) for any well-formed face list
(unit normals, planar faces, vertices welded within 0.01, distinct
consecutive vertices, index lookup returning each face) the state after
processing any command list has a unit heading tangent to the current
face. -/
theorem C8_heading_invariant :
    (∀ (n v : V3) (θ : ℝ), n.lengthSq = 1 → v.dot n = 0 →
      (v.applyAxisAngle n θ).lengthSq = v.lengthSq ∧
        (v.applyAxisAngle n θ).dot n = 0) ∧
    (∀ a f t : V3, a.lengthSq = 1 → f.lengthSq = 1 → t.lengthSq = 1 →
      a.dot f = 0 → a.dot t = 0 →
      f.applyQuaternion (Quat.setFromAxisAngle a (f.angleTo t *
        (if 0 < (V3.cross f t).dot a then (1 : ℝ) else -1))) = t) ∧
    (∀ (st : TurtleState) (f nb : FaceData) (v1 v2 : V3),
      f.normal.lengthSq = 1 → nb.normal.lengthSq = 1 → v1 ≠ v2 →
      (v2 - v1).dot f.normal = 0 → (v2 - v1).dot nb.normal = 0 →
      st.heading.dot f.normal = 0 →
      (crossEdge st f nb v1 v2).faceIndex = nb.index ∧
        (crossEdge st f nb v1 v2).heading.lengthSq = st.heading.lengthSq ∧
        (crossEdge st f nb v1 v2).heading.dot nb.normal = 0) ∧
    (∀ (faces : List FaceData) (sf : FaceData) (cmds : List TCmd),
      (∀ f ∈ faces, f.normal.lengthSq = 1) →
      (∀ f ∈ faces, ∀ v ∈ f.vertices, (v - f.center).dot f.normal = 0) →
      (∀ f ∈ faces, ∀ g ∈ faces, ∀ v ∈ f.vertices, ∀ w ∈ g.vertices,
        v.distanceTo w < 0.01 → v = w) →
      (∀ f ∈ faces, ∀ i, i < f.vertices.length →
        f.vertices.getD i 0 ≠
          f.vertices.getD ((i + 1) % f.vertices.length) 0) →
      (∀ f ∈ faces, findP (fun fc => fc.index = f.index) faces = some f) →
      sf ∈ faces → 1 < sf.vertices.length →
      ((0.5 : ℝ) • (sf.vertices.getD 0 0 + sf.vertices.getD 1 0) -
        sf.center).lengthSq ≠ 0 →
      (genLoop faces sf (initialHeadingOf sf) cmds
        (genInit sf)).st.heading.lengthSq = 1 ∧
        ∀ f', findP (fun fc => fc.index =
            (genLoop faces sf (initialHeadingOf sf) cmds
              (genInit sf)).st.faceIndex) faces = some f' →
          (genLoop faces sf (initialHeadingOf sf) cmds
            (genInit sf)).st.heading.dot f'.normal = 0) := by
  refine ⟨turn_inv, rot_maps_normal, crossEdge_inv, ?_⟩
  intro faces sf cmds hunit hplanar hweld hconsec hfind hsfm hlen hmid
  have hv0m : sf.vertices.getD 0 0 ∈ sf.vertices :=
    list_getD_mem (Nat.lt_of_lt_of_le Nat.zero_lt_one hlen.le)
  have hv1m : sf.vertices.getD 1 0 ∈ sf.vertices := list_getD_mem hlen
  have hih1 : (initialHeadingOf sf).lengthSq = 1 := normalize_lengthSq _ hmid
  have hih2 : (initialHeadingOf sf).dot sf.normal = 0 := by
    apply normalize_dot_zero
    rw [mid_dot_split, hplanar sf hsfm _ hv0m, hplanar sf hsfm _ hv1m]
    ring
  apply genLoop_inv faces sf (initialHeadingOf sf) hunit hplanar hweld hconsec
    hfind hsfm hih1 hih2 cmds (genInit sf) hih1
  intro f' hf'
  simp only [genInit] at hf'
  rw [hfind sf hsfm] at hf'
  obtain rfl := Option.some.inj hf'
  exact hih2

lemma not_close {a b : V3} (h : 1 ≤ (a - b).lengthSq) :
    ¬a.distanceTo b < 0.01 := by
  rw [V3.distanceTo, V3.length, not_lt]
  have h1 : (1 : ℝ) ≤ Real.sqrt ((a - b).lengthSq) := by
    rw [show (1 : ℝ) = Real.sqrt 1 from Real.sqrt_one.symm]
    exact Real.sqrt_le_sqrt h
  linarith

set_option maxHeartbeats 1600000 in
lemma dc_weld : ∀ f ∈ dcSquareFaces, ∀ g ∈ dcSquareFaces, ∀ v ∈ f.vertices,
    ∀ w ∈ g.vertices, v.distanceTo w < 0.01 → v = w := by
  intro f hf g hg v hv w hw hclose
  simp only [dcSquareFaces, List.mem_cons, List.not_mem_nil, or_false]
    at hf hg
  rcases hf with rfl | rfl <;> rcases hg with rfl | rfl <;>
    simp only [dcSquareVertices, List.reverse_cons, List.reverse_nil,
      List.nil_append, List.cons_append, List.mem_cons, List.not_mem_nil,
      or_false] at hv hw <;>
    (rcases hv with rfl | rfl | rfl | rfl <;>
      rcases hw with rfl | rfl | rfl | rfl <;>
      first
        | rfl
        | exact absurd hclose (not_close (by norm_num [V3.lengthSq, sub_mk])))

/-- Witness for C8: the full invariant instantiated on the doubly covered
square for the edge-crossing walk `fd 1`. -/
theorem C8_heading_invariant_witness :
    (genLoop dcSquareFaces ⟨1, ⟨0, -(1 / 2), 0⟩, ⟨0, -1, 0⟩, dcSquareVertices⟩
        (initialHeadingOf
          ⟨1, ⟨0, -(1 / 2), 0⟩, ⟨0, -1, 0⟩, dcSquareVertices⟩)
        [TCmd.fd 1 1]
        (genInit ⟨1, ⟨0, -(1 / 2), 0⟩, ⟨0, -1, 0⟩,
          dcSquareVertices⟩)).st.heading.lengthSq = 1 ∧
      ∀ f', findP (fun fc => fc.index =
          (genLoop dcSquareFaces
            ⟨1, ⟨0, -(1 / 2), 0⟩, ⟨0, -1, 0⟩, dcSquareVertices⟩
            (initialHeadingOf
              ⟨1, ⟨0, -(1 / 2), 0⟩, ⟨0, -1, 0⟩, dcSquareVertices⟩)
            [TCmd.fd 1 1]
            (genInit ⟨1, ⟨0, -(1 / 2), 0⟩, ⟨0, -1, 0⟩,
              dcSquareVertices⟩)).st.faceIndex) dcSquareFaces = some f' →
        (genLoop dcSquareFaces
          ⟨1, ⟨0, -(1 / 2), 0⟩, ⟨0, -1, 0⟩, dcSquareVertices⟩
          (initialHeadingOf
            ⟨1, ⟨0, -(1 / 2), 0⟩, ⟨0, -1, 0⟩, dcSquareVertices⟩)
          [TCmd.fd 1 1]
          (genInit ⟨1, ⟨0, -(1 / 2), 0⟩, ⟨0, -1, 0⟩,
            dcSquareVertices⟩)).st.heading.dot f'.normal = 0 := by
  apply C8_heading_invariant.2.2.2
  · intro f hf
    simp only [dcSquareFaces, List.mem_cons, List.not_mem_nil, or_false] at hf
    rcases hf with rfl | rfl <;> norm_num [V3.lengthSq]
  · intro f hf v hv
    simp only [dcSquareFaces, List.mem_cons, List.not_mem_nil, or_false] at hf
    rcases hf with rfl | rfl <;>
      simp only [dcSquareVertices, List.reverse_cons, List.reverse_nil,
        List.nil_append, List.cons_append, List.mem_cons, List.not_mem_nil,
        or_false] at hv <;>
      rcases hv with rfl | rfl | rfl | rfl <;>
      norm_num [V3.dot, sub_mk]
  · exact dc_weld
  · intro f hf i hi
    simp only [dcSquareFaces, List.mem_cons, List.not_mem_nil, or_false] at hf
    rcases hf with rfl | rfl <;>
      simp only [dcSquareVertices, List.reverse_cons, List.reverse_nil,
        List.nil_append, List.cons_append] at hi ⊢ <;>
      [skip; skip] <;>
      · simp only [List.length_cons, List.length_nil] at hi
        interval_cases i <;>
          norm_num [List.getD, V3.ext_iff]
  · intro f hf
    simp only [dcSquareFaces, List.mem_cons, List.not_mem_nil, or_false] at hf
    rcases hf with rfl | rfl <;> norm_num [findP, dcSquareFaces]
  · norm_num [dcSquareFaces]
  · norm_num [dcSquareVertices]
  · norm_num [dcSquareVertices, List.getD, V3.lengthSq, smul_mk, add_mk,
      sub_mk]

end PolyRoll
